import Mathlib

/-!
# Verification of the qitmeer block-DAG consensus core against its specification

This file gives a shallow embedding of the two components of the repository
that the specification's claims are about:

* the UTXO viewpoint (`src/core/blockchain/utxo.go`): `AddTxOuts`,
  `connectTransaction`, `disconnectTransactions`, `commit`,
  `fetchUtxosMain`, `LookupEntry`, `GetSpentTxOut`;
* the block-DAG engine (`src/unnamed/part_000`): `AddBlock`, `updateTips`,
  `calculatePastBlockSetNum`, `GetAnticone`, `GetFutureSet`,
  `sortBlockSet`, `GetTempOrder`, `updateCommonOrder`,
  `updateCommonBlueSet`, `updateHourglass`, `updateOrder`,
  `GetCommonOrderNum`, `GetBlockOrder`.

Go maps are modelled as association lists with unique keys (a Go map can
never hold a duplicate key); Go `*BlockSet` values are modelled as sorted
duplicate-free lists of `Nat` (block hashes are 32-byte values with a total
lexicographic order, which fixed-width ids make identical to numeric order).
Go map iteration order is not deterministic; every iteration in this model
uses ascending key order, which is one possible schedule of the Go program.
Recursive graph algorithms are translated with an explicit fuel parameter;
all concrete evaluations in the theorems below use fuel that is far larger
than the recursion depth those inputs can reach.
-/

namespace Qitmeer

/-! ## Association-list maps (model of Go maps) -/

/-- Lookup in an association list: the value at the first matching key. -/
def alookup {α : Type} (k : Nat) : List (Nat × α) → Option α
  | [] => none
  | (k', v) :: rest => if k' = k then some v else alookup k rest

/-- Update an association list at a key: replace in place when the key is
present, append otherwise (a Go map assignment `m[k] = v`). -/
def aset {α : Type} (k : Nat) (v : α) : List (Nat × α) → List (Nat × α)
  | [] => [(k, v)]
  | (k', v') :: rest => if k' = k then (k', v) :: rest else (k', v') :: aset k v rest

/-- The keys of an association list. -/
def akeys {α : Type} (l : List (Nat × α)) : List Nat := l.map Prod.fst

/-! ## UTXO data model (`src/core/blockchain/utxo.go`) -/

/-- A transaction/block hash.  Hashes are modelled as naturals; equality and
the total order agree with lexicographic comparison of the fixed-width ids. -/
abbrev Hash := Nat

/-- `utxoOutput`: one unspent-transaction output held in an entry. -/
structure UtxoOutput where
  scriptVersion : Nat
  pkScript : List Nat
  amount : Nat
  spent : Bool
deriving DecidableEq, Repr, Inhabited

/-- `UtxoEntry`: all outputs of one transaction, with its metadata.
`sparseOutputs` is a Go map from output index to output. -/
structure UtxoEntry where
  txVersion : Nat
  order : Nat
  index : Nat
  isCoinBase : Bool
  hasExpiry : Bool
  txType : Nat
  modified : Bool
  sparseOutputs : List (Nat × UtxoOutput)
deriving DecidableEq, Repr, Inhabited

/-- `UtxoViewpoint`: the in-memory view.  A Go map can hold a key whose
value is a nil pointer, and `fetchUtxosMain` stores such nil entries on
purpose, so the map value is `Option UtxoEntry`: `none` models a stored
nil pointer (`some none` at the `alookup` level), while an absent key is
`none` at the `alookup` level. -/
structure UtxoViewpoint where
  entries : List (Hash × Option UtxoEntry)
  bestHash : Hash
deriving DecidableEq, Repr, Inhabited

/-- A transaction output as it appears in a transaction. -/
structure TxOut where
  amount : Nat
  pkScript : List Nat
deriving DecidableEq, Repr, Inhabited

/-- A transaction input: reference to a previous output. -/
structure TxIn where
  prevHash : Hash
  prevOutIndex : Nat
deriving DecidableEq, Repr, Inhabited

/-- A transaction.  `isCoinBase` models the external `types.IsCoinBaseTx`
predicate and `txType` the external `types.DetermineTxType`, both of which
are attributes of the transaction bytes and therefore carried on the
transaction itself. -/
structure Tx where
  hash : Hash
  version : Nat
  txIns : List TxIn
  txOuts : List TxOut
  expire : Nat
  isCoinBase : Bool
  txType : Nat
deriving DecidableEq, Repr, Inhabited

/-- A serialized block, with the fields `disconnectTransactions` and
`fetchInputUtxos` read: its own hash, its parent's hash (from the header),
its order and its transactions. -/
structure Block where
  hash : Hash
  parent : Hash
  order : Nat
  transactions : List Tx
deriving DecidableEq, Repr, Inhabited

/-- `SpentTxOut`: one record of the per-block spend journal. -/
structure SpentTxOut where
  amount : Nat
  scriptVersion : Nat
  pkScript : List Nat
  txIndex : Nat
  inIndex : Nat
  txVersion : Nat
  order : Nat
  isCoinBase : Bool
  hasExpiry : Bool
  txType : Nat
  txFullySpent : Bool
deriving DecidableEq, Repr, Inhabited

/-- The zero value of `SpentTxOut` (`var result SpentTxOut` in Go). -/
def zeroSpentTxOut : SpentTxOut :=
  { amount := 0, scriptVersion := 0, pkScript := [], txIndex := 0, inIndex := 0,
    txVersion := 0, order := 0, isCoinBase := false, hasExpiry := false,
    txType := 0, txFullySpent := false }

/-- `newUtxoEntry` (utxo.go): a fresh entry with no outputs. -/
def newUtxoEntry (txVersion order index : Nat) (isCoinBase hasExpiry : Bool)
    (tt : Nat) : UtxoEntry :=
  { txVersion := txVersion, order := order, index := index,
    isCoinBase := isCoinBase, hasExpiry := hasExpiry, txType := tt,
    modified := false, sparseOutputs := [] }

/-- Modelled from the spec: `UtxoEntry.IsFullySpent` is declared in a source
file that is not part of the provided sources; per §3 of the specification an
entry is fully spent when it has no unspent output, so the method holds
exactly when every output present in `sparseOutputs` is marked spent. -/
def UtxoEntry.isFullySpent (e : UtxoEntry) : Bool :=
  e.sparseOutputs.all (fun p => p.2.spent)

/-- Modelled from the spec: `UtxoEntry.SpendOutput` is declared in a source
file that is not part of the provided sources; per §4.F the connection path
"marks the referenced output spent", so the method sets the `spent` flag of
the output at the given index and does nothing when the index is absent. -/
def UtxoEntry.spendOutput (e : UtxoEntry) (i : Nat) : UtxoEntry :=
  match alookup i e.sparseOutputs with
  | none => e
  | some o => { e with sparseOutputs := aset i { o with spent := true } e.sparseOutputs }

/-- Modelled from the spec: accessor `AmountByIndex` (absent source file);
out-of-range indices yield the zero value. -/
def UtxoEntry.amountByIndex (e : UtxoEntry) (i : Nat) : Nat :=
  ((alookup i e.sparseOutputs).getD default).amount

/-- Modelled from the spec: accessor `ScriptVersionByIndex` (absent source file). -/
def UtxoEntry.scriptVersionByIndex (e : UtxoEntry) (i : Nat) : Nat :=
  ((alookup i e.sparseOutputs).getD default).scriptVersion

/-- Modelled from the spec: accessor `PkScriptByIndex` (absent source file). -/
def UtxoEntry.pkScriptByIndex (e : UtxoEntry) (i : Nat) : List Nat :=
  ((alookup i e.sparseOutputs).getD default).pkScript

/-- `LookupEntry` (utxo.go): absent keys and stored nil pointers both come
back as nil. -/
def lookupEntry (view : UtxoViewpoint) (h : Hash) : Option UtxoEntry :=
  match alookup h view.entries with
  | none => none
  | some e => e

/-- The value of the Go expression `view.entries[h]`: indexing a Go map
yields the zero value (a nil pointer) for an absent key. -/
def entryAt (view : UtxoViewpoint) (h : Hash) : Option UtxoEntry :=
  (alookup h view.entries).join

/-- The output-loop body of `AddTxOuts`: skip provably-unspendable outputs,
reset existing outputs (spent flag, amount, script), insert new ones.
`unspendable` models the external `txscript.IsUnspendable`. -/
def applyTxOut (unspendable : Nat → List Nat → Bool)
    (so : List (Nat × UtxoOutput)) (idxOut : Nat × TxOut) : List (Nat × UtxoOutput) :=
  if unspendable idxOut.2.amount idxOut.2.pkScript then so
  else
    match alookup idxOut.1 so with
    | some o => aset idxOut.1
        { o with spent := false, amount := idxOut.2.amount, pkScript := idxOut.2.pkScript } so
    | none => so ++ [(idxOut.1, { scriptVersion := 0, pkScript := idxOut.2.pkScript,
                                  amount := idxOut.2.amount, spent := false })]

/-- The entry `AddTxOuts` ends up storing for the transaction: the fresh or
refreshed entry, marked modified, with the transaction's outputs applied. -/
def addTxOutsEntry (unspendable : Nat → List Nat → Bool) (view : UtxoViewpoint)
    (tx : Tx) (blockOrder blockIndex : Nat) : UtxoEntry :=
  let entry0 :=
    match lookupEntry view tx.hash with
    | none => newUtxoEntry tx.version blockOrder blockIndex tx.isCoinBase
        (tx.expire ≠ 0) tx.txType
    | some e => { e with order := blockOrder, index := blockIndex }
  let entry1 := { entry0 with modified := true }
  { entry1 with
    sparseOutputs := tx.txOuts.enum.foldl (applyTxOut unspendable) entry1.sparseOutputs }

/-- `AddTxOuts` (utxo.go): ensure an entry exists for the transaction,
refresh its order/index, mark it modified, and add/reset its outputs. -/
def addTxOuts (unspendable : Nat → List Nat → Bool) (view : UtxoViewpoint)
    (tx : Tx) (blockOrder blockIndex : Nat) : UtxoViewpoint :=
  { view with entries :=
      (aset tx.hash (some (addTxOutsEntry unspendable view tx blockOrder blockIndex))
        view.entries) }

/-- The input loop of `connectTransaction`: spend each referenced output in
order, appending a journal record per input when a journal is carried. -/
def connectInputs (view : UtxoViewpoint) (blockIndex : Nat)
    (stxos : Option (List SpentTxOut)) :
    List (Nat × TxIn) → Except String (UtxoViewpoint × Option (List SpentTxOut))
  | [] => .ok (view, stxos)
  | (inIndex, txIn) :: rest =>
    match entryAt view txIn.prevHash with
    | none => .error "view missing input"
    | some e =>
      let e' := e.spendOutput txIn.prevOutIndex
      let view' := { view with entries := aset txIn.prevHash (some e') view.entries }
      let stxos' :=
        match stxos with
        | none => none
        | some l => some (l ++ [{
            amount := e'.amountByIndex txIn.prevOutIndex,
            scriptVersion := e'.scriptVersionByIndex txIn.prevOutIndex,
            pkScript := e'.pkScriptByIndex txIn.prevOutIndex,
            txIndex := blockIndex,
            inIndex := inIndex,
            txVersion := e'.txVersion,
            order := e'.order,
            isCoinBase := e'.isCoinBase,
            hasExpiry := e'.hasExpiry,
            txType := e'.txType,
            txFullySpent := e'.isFullySpent }])
      connectInputs view' blockIndex stxos' rest

/-- `connectTransaction` (utxo.go): spend the inputs (journaling them) and
add the transaction's outputs; a coinbase only adds outputs. -/
def connectTransaction (unspendable : Nat → List Nat → Bool) (view : UtxoViewpoint)
    (tx : Tx) (blockOrder blockIndex : Nat) (stxos : Option (List SpentTxOut)) :
    Except String (UtxoViewpoint × Option (List SpentTxOut)) :=
  if tx.isCoinBase then
    .ok (addTxOuts unspendable view tx blockOrder blockIndex, stxos)
  else
    match connectInputs view blockIndex stxos tx.txIns.enum with
    | .error e => .error e
    | .ok (view', stxos') =>
      .ok (addTxOuts unspendable view' tx blockOrder blockIndex, stxos')

/-- `GetSpentTxOut` (utxo.go): linear scan of the journal.  The Go function
declares `var result SpentTxOut`, overwrites it on the first match, and
returns `&result` unconditionally, so a miss on a nonempty journal yields a
pointer to the zero-valued record rather than nil. -/
def GetSpentTxOut (txIndex inIndex : Nat) (stxos : List SpentTxOut) : Option SpentTxOut :=
  if stxos.length = 0 then none
  else some ((stxos.find? (fun s => s.txIndex == txIndex && s.inIndex == inIndex)).getD
    zeroSpentTxOut)

/-- One input step of `disconnectTransactions` (the body of its inner
backward loop): restore the output referenced by `txIn` using the journal
record for `(txIdx, txInIdx)`. -/
def disconnectInput (entries : List (Hash × Option UtxoEntry)) (tx : Tx)
    (txIdx : Nat) (stxos : List SpentTxOut) (inStep : Nat × TxIn) :
    Except String (List (Hash × Option UtxoEntry)) :=
  match GetSpentTxOut txIdx inStep.1 stxos with
  | none => .ok entries
  | some stxo =>
    let originHash := inStep.2.prevHash
    let originIndex := inStep.2.prevOutIndex
    match (alookup originHash entries).join with
    | none =>
      if !stxo.txFullySpent then
        .error "tried to revive utx from non-fully spent stx entry"
      else
        let entry := newUtxoEntry tx.version stxo.order stxo.txIndex stxo.isCoinBase
          stxo.hasExpiry stxo.txType
        let entry1 := { entry with modified := true }
        let entry2 := { entry1 with sparseOutputs := entry1.sparseOutputs ++
          [(originIndex, { scriptVersion := stxo.scriptVersion, pkScript := stxo.pkScript,
                           amount := stxo.amount, spent := false })] }
        .ok (aset originHash (some entry2) entries)
    | some e =>
      let e1 := { e with modified := true }
      let e2 :=
        match alookup originIndex e1.sparseOutputs with
        | none => { e1 with sparseOutputs := e1.sparseOutputs ++
            [(originIndex, { scriptVersion := stxo.scriptVersion, pkScript := stxo.pkScript,
                             amount := stxo.amount, spent := false })] }
        | some o => { e1 with sparseOutputs :=
            (aset originIndex { o with spent := false } e1.sparseOutputs) }
      .ok (aset originHash (some e2) entries)

/-- Fallible left fold, used for the journal-consuming loops. -/
def foldE {σ α : Type} (f : σ → α → Except String σ) : σ → List α → Except String σ
  | s, [] => .ok s
  | s, a :: rest =>
    match f s a with
    | .error e => .error e
    | .ok s' => foldE f s' rest

/-- One transaction step of `disconnectTransactions` (the body of its outer
backward loop): clear the transaction's own entry, then walk its inputs in
reverse restoring the spent outputs. -/
def disconnectTx (blockOrder : Nat) (stxos : List SpentTxOut)
    (entries : List (Hash × Option UtxoEntry)) (txStep : Nat × Tx) :
    Except String (List (Hash × Option UtxoEntry)) :=
  let txIdx := txStep.1
  let tx := txStep.2
  let isCoinbase := txIdx == 0
  let entry0 :=
    match (alookup tx.hash entries).join with
    | none => newUtxoEntry tx.version blockOrder txIdx isCoinbase (tx.expire ≠ 0) 0
    | some e => e
  let entry1 := { entry0 with modified := true, sparseOutputs := [] }
  let entries1 := aset tx.hash (some entry1) entries
  if isCoinbase then .ok entries1
  else foldE (fun es p => disconnectInput es tx txIdx stxos p) entries1 tx.txIns.enum.reverse

/-- `disconnectTransactions` (utxo.go): iterate the block's transactions in
reverse, clearing each one's outputs and restoring what it spent, then set
the view's best hash.  Note that the Go code ends with
`view.SetBestHash(block.Hash())` — the hash of the block being
disconnected itself, even though its own comment says "to the previous
block". -/
def disconnectTransactions (view : UtxoViewpoint) (block : Block)
    (stxos : List SpentTxOut) : Except String UtxoViewpoint :=
  match foldE (disconnectTx block.order stxos) view.entries block.transactions.enum.reverse with
  | .error e => .error e
  | .ok entries' => .ok { entries := entries', bestHash := block.hash }

/-- The per-entry body of the `commit` loop: drop a nil entry or a
modified fully-spent entry, otherwise clear the modified flag. -/
def commitEntry (p : Hash × Option UtxoEntry) : Option (Hash × Option UtxoEntry) :=
  match p.2 with
  | none => none
  | some e =>
    if e.modified && e.isFullySpent then none
    else some (p.1, some { e with modified := false })

/-- `commit` (utxo.go): drop nil entries and modified fully-spent entries;
clear the modified flag on the survivors. -/
def commit (view : UtxoViewpoint) : UtxoViewpoint :=
  { view with entries := view.entries.filterMap commitEntry }

/-- The request loop of `fetchUtxosMain`: skip hashes already present in
the view, store the database result for the rest. -/
def fetchLoop (db : Hash → Option UtxoEntry) :
    List (Hash × Option UtxoEntry) → List Hash → List (Hash × Option UtxoEntry)
  | es, [] => es
  | es, h :: rest =>
    match alookup h es with
    | some _ => fetchLoop db es rest
    | none => fetchLoop db (es ++ [(h, db h)]) rest

/-- `fetchUtxosMain` (utxo.go): for each requested hash not already present
in the view, store the database result — which is nil exactly when the
store lacks the transaction.  `db` models `dbFetchUtxoEntry` inside the
read transaction. -/
def fetchUtxosMain (db : Hash → Option UtxoEntry) (view : UtxoViewpoint)
    (txSet : List Hash) : UtxoViewpoint :=
  { view with entries := fetchLoop db view.entries txSet }

/-! ## Block-DAG engine (`src/unnamed/part_000`) -/

/-- A block set (`*BlockSet`): a set of block hashes.  Modelled as a sorted
duplicate-free list; iteration over a set is in ascending hash order, which
is one possible schedule of the Go map iteration.  The `BlockSet`
implementation itself is not among the provided sources; its operations are
modelled from §4.A of the spec (add/remove/has/len/union/intersection/
difference/contains and a snapshot iterator). -/
abbrev BSet := List Nat

/-- Set membership. -/
def bsHas (s : BSet) (x : Nat) : Bool := s.contains x

/-- Insert keeping the list sorted and duplicate-free. -/
def bsAdd (x : Nat) : BSet → BSet
  | [] => [x]
  | y :: ys => if x < y then x :: y :: ys else if x = y then y :: ys else y :: bsAdd x ys

/-- Remove an element. -/
def bsRemove (x : Nat) (s : BSet) : BSet := s.filter (fun y => !(y == x))

/-- `AddSet`: union into the left set. -/
def bsAddSet (s other : BSet) : BSet := other.foldl (fun acc y => bsAdd y acc) s

/-- `Exclude`: set difference. -/
def bsExclude (s other : BSet) : BSet := s.filter (fun y => !(other.contains y))

/-- `Intersection`. -/
def bsIntersection (s other : BSet) : BSet := s.filter (fun y => other.contains y)

/-- `HasOnly x`: the set is exactly `{x}`. -/
def bsHasOnly (s : BSet) (x : Nat) : Bool := s == [x]

/-- `Contain other`: every element of `other` is in `s`. -/
def bsContain (s other : BSet) : Bool := other.all (fun y => s.contains y)

/-- A block record of the DAG index (`IBlock`): hash, parents, children,
timestamp, the frozen past-set size, the assigned order height. -/
structure DagBlock where
  hash : Nat
  parents : BSet
  children : BSet
  timestamp : Int
  pastNum : Nat
  height : Nat
deriving DecidableEq, Repr, Inhabited

/-- The engine state (`BlockDAG`).  `tips` and `hourglassBlocks` start as
Go nil pointers, hence the `Option`.  `commonOrder` entries may be nil
(elided or rolled-back slots).  The `tempBlueSet` cache of the Go struct is
not carried: it is cleared at the top of every `AddBlock` and recomputed by
`getTempBS` from the same graph before any use, so modelling it as a pure
recomputation is observationally identical.  `errors` records every
`log.Error` the engine emits, so that the code's own failed internal checks
are visible to the theorems. -/
structure DagState where
  genesis : Nat
  totalBlocks : Nat
  commonBlueSet : BSet
  lastCommonBlocks : BSet
  commonOrder : List (Option Nat)
  tempOrder : List Nat
  tips : Option BSet
  hourglassBlocks : Option BSet
  lastTime : Int
  anticoneSize : Nat
  index : List (Nat × DagBlock)
  errors : List String
deriving DecidableEq, Repr, Inhabited

/-- `GetBlock`: look a block up in the index. -/
def getBlock (st : DagState) (h : Nat) : Option DagBlock := alookup h st.index

/-- The frozen past-set size of a block (`GetPastSetNum`); 0 for a missing
block (the Go code would dereference nil there). -/
def pastNumOf (st : DagState) (h : Nat) : Nat := ((getBlock st h).getD default).pastNum

/-- Overwrite one block record in the index. -/
def modifyBlock (st : DagState) (h : Nat) (f : DagBlock → DagBlock) : DagState :=
  { st with index := st.index.map (fun p => if p.1 = h then (p.1, f p.2) else p) }

/-- `SetPastSetNum` on the indexed block (`addPastSetNum`). -/
def addPastSetNum (st : DagState) (h : Nat) (num : Nat) : DagState :=
  modifyBlock st h (fun b => { b with pastNum := num })

/-- `SetHeight` on the indexed block. -/
def setHeight (st : DagState) (h : Nat) (v : Nat) : DagState :=
  modifyBlock st h (fun b => { b with height := v })

/-- The order height of a block as stored on its record. -/
def heightOf (st : DagState) (h : Nat) : Nat := ((getBlock st h).getD default).height

/-- `index.AddNode`: link the new block as a child of each of its parents
and append it to the index (the block-index implementation is not among the
provided sources; per §4.B insertion "reactively appends the id to each
parent's children"). -/
def addNode (st : DagState) (b : DagBlock) : DagState :=
  { st with index :=
      (st.index.map (fun p => if bsHas b.parents p.1
        then (p.1, { p.2 with children := bsAdd b.hash p.2.children }) else p))
      ++ [(b.hash, b)] }

/-- `updateTips`: drop tips that now have children; add the new block. -/
def updateTips (st : DagState) (b : DagBlock) : DagState :=
  match st.tips with
  | none => { st with tips := some [b.hash], genesis := b.hash }
  | some tips =>
    let isBelong := bsHas tips b.hash
    let tips1 := tips.filter (fun k =>
      match getBlock st k with
      | none => true
      | some node => node.children.isEmpty)
    let tips2 := if isBelong then tips1 else bsAdd b.hash tips1
    { st with tips := some tips2 }

/-- `GetFutureSet`: transitive closure of children, accumulated into `fs`. -/
def getFutureSetF : Nat → DagState → BSet → Nat → BSet
  | 0, _, fs, _ => fs
  | Nat.succ fuel, st, fs, h =>
    match getBlock st h with
    | none => fs
    | some b =>
      b.children.foldl (fun fs k =>
        if bsHas fs k then fs else getFutureSetF fuel st (bsAdd k fs) k) fs

/-- `isVirtualTip`: all children of the visited block are already accounted
for (in the future set or the anticone so far), and none of them is the
block whose anticone is being computed. -/
def isVirtualTip (bHash : Nat) (futureSet anticone children : BSet) : Bool :=
  children.all (fun k => !(k == bHash) && (bsHas futureSet k || bsHas anticone k))

/-- `recAnticone`: the downward walk of the anticone computation starting
from one tip. -/
def recAnticoneF : Nat → DagState → Nat → BSet → BSet → Nat → BSet
  | 0, _, _, _, anticone, _ => anticone
  | Nat.succ fuel, st, bHash, futureSet, anticone, h =>
    if h == bHash then anticone
    else
      match getBlock st h with
      | none => anticone
      | some node =>
        let needRecursion :=
          if node.children.isEmpty then true
          else isVirtualTip bHash futureSet anticone node.children
        if needRecursion then
          let anticone1 := if !(bsHas futureSet h) then bsAdd h anticone else anticone
          node.parents.foldl (fun acc k => recAnticoneF fuel st bHash futureSet acc k) anticone1
        else anticone

/-- `GetAnticone`: anticone of a block, minus an optional exclude set. -/
def getAnticone (fuel : Nat) (st : DagState) (b : DagBlock) (exclude : Option BSet) : BSet :=
  let futureSet := getFutureSetF fuel st [] b.hash
  let anticone := (st.tips.getD []).foldl
    (fun acc k => recAnticoneF fuel st b.hash futureSet acc k) []
  match exclude with
  | none => anticone
  | some ex => bsExclude anticone ex

/-- `calculatePastBlockSetNum`: freeze the past-set size of a new block.
For a multi-parent block the Go code takes `parentsList[0]`, the first
parent produced by map iteration; in this model that is the parent with
the smallest hash. -/
def calculatePastBlockSetNum (fuel : Nat) (st : DagState) (b : DagBlock) : DagState :=
  if b.hash == st.genesis then addPastSetNum st b.hash 0
  else
    match b.parents with
    | [] => st
    | [p] => addPastSetNum st b.hash (pastNumOf st p + 1)
    | p0 :: _ =>
      let bNode := (getBlock st b.hash).getD b
      let anticone := getAnticone fuel st bNode none
      let p0Node := (getBlock st p0).getD default
      let anOther := getAnticone fuel st p0Node (some anticone)
      addPastSetNum st b.hash (pastNumOf st p0 + anOther.length + 1)

/-- Insert a hash into a list sorted by `(pastNum, hash)` (the `SortBlocks`
comparator: ascending past-set size, ties by ascending id). -/
def insertByPast (st : DagState) (x : Nat) : List Nat → List Nat
  | [] => [x]
  | y :: ys =>
    if pastNumOf st x < pastNumOf st y
        ∨ (pastNumOf st x = pastNumOf st y ∧ x < y) then x :: y :: ys
    else y :: insertByPast st x ys

/-- Sort a list of hashes by `(pastNum, hash)`. -/
def sortByPast (st : DagState) (l : List Nat) : List Nat :=
  l.foldl (fun acc x => insertByPast st x acc) []

/-- `sortBlockSet`: deterministic sort; when `bs` is given, members of `bs`
come first, each group sorted by `(pastNum, hash)`. -/
def sortBlockSet (st : DagState) (set : BSet) (bs : Option BSet) : List Nat :=
  match bs with
  | none => sortByPast st set
  | some bsv =>
      sortByPast st (set.filter (fun h => bsHas bsv h))
        ++ sortByPast st (set.filter (fun h => !(bsHas bsv h)))

/-- `getPastSetByOrder`.  Note the Go recursion checks
`pastSet.Has(h)` on entry *after* the caller has just added `h`, so each
call only ever contributes the direct parents of its argument. -/
def getPastSetByOrderF : Nat → DagState → BSet → BSet → Nat → BSet
  | 0, _, pastSet, _, _ => pastSet
  | Nat.succ fuel, st, pastSet, exclude, h =>
    if bsHas exclude h || bsHas pastSet h then pastSet
    else if h == st.genesis then pastSet
    else
      match getBlock st h with
      | none => pastSet
      | some node =>
        if node.parents.isEmpty then pastSet
        else node.parents.foldl
          (fun ps v => getPastSetByOrderF fuel st (bsAdd v ps) exclude v) pastSet

/-- The accumulator threaded through `GetTempOrder`: the order built so far
and the membership set `tempOrderM`. -/
structure TOAcc where
  ord : List Nat
  m : BSet
deriving DecidableEq, Repr, Inhabited

/-- `GetTempOrder`: the deterministic topological walk that emits the tail
order.  `bs` is the blue set, `exclude` the already-ordered exclusion set
(always a non-nil set at both call sites of the Go code). -/
def getTempOrderF : Nat → DagState → BSet → BSet → Nat → TOAcc → TOAcc
  | 0, _, _, _, _, acc => acc
  | Nat.succ fuel, st, bs, exclude, h, acc =>
    -- 1. already-excluded blocks are skipped
    if bsHas exclude h then acc
    else
      match getBlock st h with
      | none => acc
      | some node =>
        -- 2. if a non-excluded parent is unordered, return
        if node.parents.any (fun k => !(bsHas exclude k) && !(bsHas acc.m k)) then acc
        else
          -- 3. order the blue uncles that must precede `h`
          let anticone : Option BSet :=
            if !(bsHas acc.m h) && !(h == st.genesis) && !(bsHas st.lastCommonBlocks h) then
              some (getAnticone fuel st node (some exclude))
            else none
          let acc :=
            match anticone with
            | none => acc
            | some an =>
              if an.isEmpty then acc
              else
                let ansb := sortBlockSet st an (some bs)
                if bsHas bs h then
                  ansb.foldl (fun acc av =>
                    if bsHas bs av && pastNumOf st av < pastNumOf st h && !(bsHas acc.m av)
                    then getTempOrderF fuel st bs exclude av acc else acc) acc
                else
                  ansb.foldl (fun acc av =>
                    if bsHas bs av && !(bsHas acc.m av)
                    then getTempOrderF fuel st bs exclude av acc else acc) acc
          -- 4. add `h` itself
          let acc : TOAcc :=
            if !(bsHas acc.m h) then ⟨acc.ord ++ [h], bsAdd h acc.m⟩ else acc
          -- 5. order the children: blue first, red flushed afterwards
          let children := bsExclude node.children exclude
          if children.isEmpty then acc
          else
            let sb := sortBlockSet st children (some bs)
            let acc := sb.foldl (fun acc v =>
              if bsHas bs v then
                let acc :=
                  if !(bsHas acc.m v) then
                    let excludeT := bsAddSet acc.m exclude
                    let pastSet := getPastSetByOrderF fuel st [] excludeT v
                    let inbs := bsIntersection pastSet (anticone.getD [])
                    if inbs.length > 0 then
                      let insb := sortBlockSet st inbs (some bs)
                      let (acc, redSet) := insb.foldl (fun (p : TOAcc × BSet) v0 =>
                        if bsHas bs v0 then
                          if !(bsHas p.1.m v0) then
                            (getTempOrderF fuel st bs exclude v0 p.1, p.2)
                          else p
                        else (p.1, bsAdd v0 p.2)) (acc, [])
                      if !redSet.isEmpty then
                        let pastSet1 := bsExclude pastSet redSet
                        let isAllOrder := pastSet1.all (fun k => bsHas acc.m k)
                        if isAllOrder then
                          (sortBlockSet st redSet (some bs)).foldl
                            (fun acc v1 => getTempOrderF fuel st bs exclude v1 acc) acc
                        else acc
                      else acc
                    else acc
                  else acc
                getTempOrderF fuel st bs exclude v acc
              else acc) acc
            sb.foldl (fun acc v =>
              if !(bsHas bs v) then getTempOrderF fuel st bs exclude v acc else acc) acc

/-- Count non-nil entries of a common-order slice. -/
def commonOrderBlocks (co : List (Option Nat)) : List Nat := co.filterMap id

/-- `updateCommonOrder`: either extend/overwrite the stable order with the
newly stabilised region (advance) or nil out its tail (rollback). -/
def updateCommonOrder (fuel : Nat) (st : DagState) (tip : Nat) (blueSet : Option BSet)
    (isRollBack : Bool) (exclude : Option BSet) (curLastCommonBS : Option BSet)
    (startIndex : Int) : DagState :=
  if tip == st.genesis then { st with commonOrder := [] }
  else
    match getBlock st tip with
    | none => st
    | some node =>
      let st :=
        if bsHasOnly node.parents st.genesis && st.commonOrder.length == 0 then
          { st with commonOrder := [some st.genesis] }
        else st
      if !isRollBack then
        match blueSet with
        | none => st
        | some blueSet =>
          let lpsb := sortBlockSet st st.lastCommonBlocks (some blueSet)
          let acc := lpsb.foldl
            (fun acc v => getTempOrderF fuel st blueSet (exclude.getD []) v acc) ⟨[], []⟩
          let tempOrder := acc.ord
          -- a negative write index would be an out-of-range panic in Go;
          -- such a state is recorded as an error below rather than modelled
          let co := (List.range tempOrder.length).foldl (fun (co : List (Option Nat)) i =>
            if bsHas st.lastCommonBlocks (tempOrder.getD i 0) then co
            else
              let index : Int := startIndex + i
              if 0 ≤ index ∧ index < (co.length : Int) then
                co.set index.toNat (some (tempOrder.getD i 0))
              else co ++ [some (tempOrder.getD i 0)]) st.commonOrder
          let st :=
            if startIndex < 0 then
              { st with errors := st.errors ++ ["panic:negative common order index"] }
            else st
          -- post-check: the last non-nil entry must be a new common block
          let lastNonNil := (commonOrderBlocks co).getLast?
          let errs :=
            match lastNonNil, curLastCommonBS with
            | some lb, some cl =>
              if !(bsHas cl lb) then st.errors ++ ["order errer:end block is not new common block"]
              else st.errors
            | _, _ => st.errors
          { st with commonOrder := co, errors := errs }
      else
        -- rollback: nil the tail until a current common block is reached.
        -- (On a slot that is already nil the Go code would dereference a nil
        -- hash pointer inside `BlockSet.Has`; such a slot is treated as "not
        -- a common block" here and the walk continues.)
        let poLen := st.commonOrder.length
        let scan := (List.range poLen).foldl (fun (p : List (Option Nat) × Nat × Bool) j =>
          let i := poLen - 1 - j
          if p.2.2 then p
          else
            match st.commonOrder.getD i none, curLastCommonBS with
            | some b, some cl =>
              if bsHas cl b then (p.1, p.2.1, true)
              else (p.1.set i none, p.2.1 + 1, false)
            | _, _ => (p.1.set i none, p.2.1 + 1, false)) (st.commonOrder, 0, false)
        let co := scan.1
        let rNum := scan.2.1
        let errs :=
          if (poLen : Int) - (rNum : Int) ≠ startIndex then
            st.errors ++ ["order errer:number"]
          else st.errors
        { st with commonOrder := co, errors := errs }

/-- The per-tip ancestor maps used by `calLastCommonBlocks`. -/
abbrev AncMap := List (Nat × BSet)

/-- `recPastBlockSet`: replace the globally deepest ancestor (largest
past-set size; first such in ascending map order) by its parents inside
its tip's ancestor set. -/
def recPastBlockSet (st : DagState) (tipsAncestors tipsGenealogy : AncMap) :
    AncMap × AncMap :=
  let best := tipsAncestors.foldl (fun acc (p : Nat × BSet) =>
    if p.2.length == 1 && bsHas p.2 st.genesis then acc
    else p.2.foldl (fun acc k =>
      match acc with
      | none => some (k, pastNumOf st k, p.1)
      | some (_, maxNum, _) =>
          if maxNum < pastNumOf st k then some (k, pastNumOf st k, p.1) else acc) acc) none
  match best with
  | none => (tipsAncestors, tipsGenealogy)
  | some (maxPastHash, _, tipsHash) =>
    match getBlock st maxPastHash with
    | none => (tipsAncestors, tipsGenealogy)
    | some node =>
      if node.parents.isEmpty then (tipsAncestors, tipsGenealogy)
      else
        let anc0 := bsRemove maxPastHash ((alookup tipsHash tipsAncestors).getD [])
        let gen0 := (alookup tipsHash tipsGenealogy).getD []
        let step := node.parents.foldl (fun (p : BSet × BSet) k =>
          if bsHas p.2 k then p else (bsAdd k p.1, bsAdd k p.2)) (anc0, gen0)
        (aset tipsHash step.1 tipsAncestors, aset tipsHash step.2 tipsGenealogy)

/-- The convergence loop of `calLastCommonBlocks`. -/
def calLastCommonLoop : Nat → DagState → Nat → AncMap → AncMap → Option BSet
  | 0, _, _, _, _ => none
  | Nat.succ fuel, st, tip, tipsAncestors, tipsGenealogy =>
    let ancTip := (alookup tip tipsAncestors).getD []
    let hasDifferent := tipsAncestors.any (fun p => !(p.1 == tip) && !(p.2 == ancTip))
    if !hasDifferent then some ancTip
    else
      let next := recPastBlockSet st tipsAncestors tipsGenealogy
      calLastCommonLoop fuel st tip next.1 next.2

/-- `calLastCommonBlocks`: walk the tips' genealogies backward until they
agree; the agreed frontier is the new last-common set. -/
def calLastCommonBlocks (fuel : Nat) (st : DagState) (tip : Nat) : Option BSet :=
  match st.tips with
  | none => none
  | some tips =>
    if tips.length ≤ 1 then none
    else
      let tipsAncestors := tips.map (fun v => (v, ([v] : BSet)))
      let tipsGenealogy := tips.map (fun v => (v, ([v] : BSet)))
      calLastCommonLoop fuel st tip tipsAncestors tipsGenealogy

/-- A map from block hash to its past blue set. -/
abbrev PBSMap := List (Nat × BSet)

/-- `calLastCommonBlocksPBS`: seed the past-blue-set map at the current
last-common blocks. -/
def calLastCommonBlocksPBS (fuel : Nat) (st : DagState) (pbs : PBSMap) : PBSMap :=
  let lastPFuture := st.lastCommonBlocks.foldl
    (fun fs k => getFutureSetF fuel st fs k) []
  if st.lastCommonBlocks.length == 1 then
    match st.lastCommonBlocks with
    | [lpbHash] => aset lpbHash [] pbs
    | _ => pbs
  else
    let lpbAnti : List (Nat × BSet) := st.lastCommonBlocks.map (fun k =>
      (k, getAnticone fuel st ((getBlock st k).getD default) (some lastPFuture)))
    let lastTempBlueSet := lpbAnti.foldl (fun acc p => bsAddSet acc p.2) []
    let ltbs := lastTempBlueSet.filter (fun k => bsHas st.commonBlueSet k)
    st.lastCommonBlocks.foldl (fun pbs k =>
      aset k (bsRemove k (bsExclude ltbs ((alookup k lpbAnti).getD []))) pbs) pbs

/-- Modelled from the spec: `GetMaxLenBlockSet` is not among the provided
sources; per §4.D the selected parent is the one with the largest past blue
set, ties broken lexicographically (here: the smallest hash, since the map
is iterated in ascending key order and only a strictly larger set displaces
the current maximum). -/
def getMaxLenBlockSet (m : PBSMap) : Option Nat :=
  (m.foldl (fun best p =>
    match best with
    | none => some p
    | some q => if p.2.length > q.2.length then some p else some q) none).map Prod.fst

/-- `calculateBlueSet`: the k-bounded blue-set selection over a parent set. -/
def calculateBlueSet (fuel : Nat) (st : DagState) (parents : BSet)
    (exclude : Option BSet) (pbs : PBSMap) (useCommon : Bool) : Option BSet :=
  let parentsPBSS : PBSMap := parents.map (fun k => (k, (alookup k pbs).getD []))
  match getMaxLenBlockSet parentsPBSS with
  | none => none
  | some maxH =>
    let result0 := bsAdd maxH ((alookup maxH parentsPBSS).getD [])
    if parents.length == 1 then some result0
    else
      let maxBlueAnBS := getAnticone fuel st ((getBlock st maxH).getD default) exclude
      some (maxBlueAnBS.foldl (fun res k =>
        let bAnBS := getAnticone fuel st ((getBlock st k).getD default) exclude
        if bAnBS.isEmpty then res
        else
          let inBS0 := bsIntersection res bAnBS
          let inBS := if useCommon then bsAddSet inBS0 (bsIntersection st.commonBlueSet bAnBS)
            else inBS0
          if inBS.length ≤ st.anticoneSize then bsAdd k res else res) result0)

/-- `calculatePastBlueSet`: recursively fill the past-blue-set map for a
block from its parents.  (The Go code stores the `calculateBlueSet`
result directly; on the paths taken here the parents list is nonempty so
that result is never nil.) -/
def calculatePastBlueSetF : Nat → DagState → Nat → PBSMap → Bool → PBSMap
  | 0, _, _, pbs, _ => pbs
  | Nat.succ fuel, st, h, pbs, useCommon =>
    if (alookup h pbs).isSome then pbs
    else if h == st.genesis then aset h [] pbs
    else
      match getBlock st h with
      | none => pbs
      | some node =>
        if node.parents.isEmpty then pbs
        else if bsHasOnly node.parents st.genesis then aset h [st.genesis] pbs
        else
          let pbs := node.parents.foldl
            (fun acc k => calculatePastBlueSetF fuel st k acc useCommon) pbs
          let anticone := getAnticone fuel st node none
          aset h ((calculateBlueSet fuel st node.parents (some anticone) pbs useCommon).getD [])
            pbs

/-- `updateCommonBlueSet`: recompute the last-common frontier and advance or
roll back the stable blue set and order accordingly. -/
def updateCommonBlueSet (fuel : Nat) (st : DagState) (tip : Nat) : DagState :=
  if tip == st.genesis then
    let st := { st with commonBlueSet := [], lastCommonBlocks := [] }
    updateCommonOrder fuel st tip none false none none 0
  else
    match getBlock st tip with
    | none => st
    | some node =>
      if bsHasOnly node.parents st.genesis then
        let st := { st with commonBlueSet := [st.genesis], lastCommonBlocks := [st.genesis] }
        updateCommonOrder fuel st tip none false none none 0
      else
        let tips := st.tips.getD []
        if tips.length ≤ 1 then st
        else
          match calLastCommonBlocks fuel st tip with
          | none => st
          | some curLastCommonBS =>
            if curLastCommonBS == st.lastCommonBlocks then st
            else
              let curLPFuture := curLastCommonBS.foldl
                (fun fs k => getFutureSetF fuel st fs k) []
              let lastPFuture := st.lastCommonBlocks.foldl
                (fun fs k => getFutureSetF fuel st fs k) []
              if bsContain lastPFuture curLPFuture then
                let oExclude := st.lastCommonBlocks.foldl
                  (fun acc k => bsAddSet acc (((getBlock st k).getD default).parents))
                  curLPFuture
                let pbs := calLastCommonBlocksPBS fuel st []
                let pbs := curLastCommonBS.foldl
                  (fun acc k => calculatePastBlueSetF fuel st k acc false) pbs
                let commonBlue := (calculateBlueSet fuel st curLastCommonBS
                  (some curLPFuture) pbs false).getD []
                let st := updateCommonOrder fuel st tip (some commonBlue) false
                  (some oExclude) (some curLastCommonBS)
                  ((st.totalBlocks : Int) - (lastPFuture.length : Int))
                { st with commonBlueSet := bsAddSet st.commonBlueSet commonBlue,
                          lastCommonBlocks := curLastCommonBS }
              else if bsContain curLPFuture lastPFuture then
                let st := updateCommonOrder fuel st tip none true none
                  (some curLastCommonBS)
                  ((st.totalBlocks : Int) - (curLPFuture.length : Int))
                { st with commonBlueSet := bsExclude st.commonBlueSet curLPFuture,
                          lastCommonBlocks := curLastCommonBS }
              else { st with errors := st.errors ++ ["error:common set"] }

/-- `GetTempBlueSet`: the blue set of the unstable region, from the tips. -/
def getTempBlueSet (fuel : Nat) (st : DagState) : BSet :=
  let tips := st.tips.getD []
  if bsHasOnly tips st.genesis then [st.genesis]
  else
    let pbs := calLastCommonBlocksPBS fuel st []
    let pbs := tips.foldl (fun acc k => calculatePastBlueSetF fuel st k acc false) pbs
    (calculateBlueSet fuel st tips none pbs false).getD []

/-- `recCalHourglass`: one backward step of the hourglass search. -/
def recCalHourglass (st : DagState) (genealogy ancestors : BSet) : BSet × BSet :=
  let best := ancestors.foldl (fun acc k =>
    match acc with
    | none => some (k, pastNumOf st k)
    | some (_, maxNum) => if maxNum < pastNumOf st k then some (k, pastNumOf st k) else acc)
    none
  match best with
  | none => (genealogy, ancestors)
  | some (maxPastHash, _) =>
    match getBlock st maxPastHash with
    | none => (genealogy, ancestors)
    | some node =>
      if node.parents.isEmpty then (genealogy, ancestors)
      else
        let anc0 := bsRemove maxPastHash ancestors
        node.parents.foldl (fun (p : BSet × BSet) k =>
          if bsHas p.1 k then p else (bsAdd k p.1, bsAdd k p.2)) (genealogy, anc0)

/-- The search loop of `updateHourglass`. -/
def hourglassLoop : Nat → DagState → BSet → BSet → BSet → BSet → Option BSet
  | 0, _, _, _, _, _ => none
  | Nat.succ fuel, st, tempBs, genealogy, ancestors, hourglass =>
    let step := recCalHourglass st genealogy ancestors
    let genealogy := step.1
    let anc1 := bsAddSet (bsIntersection tempBs step.2) (bsIntersection st.commonBlueSet step.2)
    if anc1.isEmpty || bsHasOnly anc1 st.genesis then some [st.genesis]
    else
      let sb := sortBlockSet st anc1 none
      let found := sb.foldl (fun acc v =>
        match acc with
        | some r => some r
        | none =>
          let anti := getAnticone fuel st ((getBlock st v).getD default) none
          if anti.isEmpty then some (bsAdd v (bsExclude hourglass genealogy))
          else
            let banti := bsAddSet (bsIntersection tempBs anti)
              (bsIntersection st.commonBlueSet anti)
            if banti.isEmpty then some (bsAdd v (bsExclude hourglass genealogy))
            else none) none
      match found with
      | some r => some r
      | none => hourglassLoop fuel st tempBs genealogy anc1 hourglass

/-- `updateHourglass`: maintain the set of hourglass blocks. -/
def updateHourglass (fuel : Nat) (st : DagState) : DagState :=
  match st.tips with
  | none => st
  | some tips =>
    if tips.isEmpty then st
    else
      let hourglass := st.hourglassBlocks.getD []
      if bsHasOnly tips st.genesis then
        { st with hourglassBlocks := some (bsAdd st.genesis hourglass) }
      else
        let tempNum := (tips.filter (fun k =>
          bsHasOnly (((getBlock st k).getD default).parents) st.genesis)).length
        if tempNum == tips.length then { st with hourglassBlocks := some hourglass }
        else
          let tempBs := getTempBlueSet fuel st
          match hourglassLoop fuel st tempBs tips tips hourglass with
          | none => { st with hourglassBlocks := some hourglass }
          | some r => { st with hourglassBlocks := some r }

/-- `GetCommonOrderNum`: one past the index of the last non-nil slot of the
common order (interior nil slots are counted). -/
def getCommonOrderNum (st : DagState) : Nat :=
  let pLen := st.commonOrder.length
  let scan := (List.range pLen).foldl (fun (acc : Option Nat) j =>
    match acc with
    | some r => some r
    | none =>
      let i := pLen - 1 - j
      if (st.commonOrder.getD i none).isSome then some (i + 1) else none) none
  scan.getD 0

/-- `updateOrder`: rebuild the tail order from the last-common frontier,
assign order heights, and run the code's own post-hoc checks.  Returns the
state and the re-order list `refNodes`. -/
def updateOrder (fuel : Nat) (st : DagState) (bHash : Nat) : DagState × List Nat :=
  let st := { st with tempOrder := [] }
  if st.totalBlocks == 1 then
    let st := { st with tempOrder := [st.genesis] }
    (setHeight st st.genesis 0, [st.genesis])
  else
    let blueSet := getTempBlueSet fuel st
    let lpsb := sortBlockSet st st.lastCommonBlocks none
    let exclude := st.lastCommonBlocks.foldl
      (fun acc k => bsAddSet acc (((getBlock st k).getD default).parents)) []
    let acc := lpsb.foldl (fun acc v => getTempOrderF fuel st blueSet exclude v acc) ⟨[], []⟩
    let pNum := getCommonOrderNum st
    let st := acc.ord.foldl (fun (st : DagState) h =>
      if bsHas st.lastCommonBlocks h then st
      else
        let tIndex := st.tempOrder.length
        let st := { st with tempOrder := st.tempOrder ++ [h] }
        let st := setHeight st h (pNum + tIndex)
        if heightOf st h == 0 then { st with errors := st.errors ++ ["Order error:orderheight"] }
        else st) st
    let st :=
      if getCommonOrderNum st + st.tempOrder.length ≠ st.totalBlocks then
        { st with errors := st.errors ++ ["Order error:The number is a problem"] }
      else st
    let tips := st.tips.getD []
    -- Go reads `bd.tempOrder[len(bd.tempOrder)-1]` unguarded; an empty tail
    -- would panic there.  An empty tail is recorded as an error state.
    if st.tempOrder.isEmpty && !(bsHasOnly tips bHash) then
      ({ st with errors := st.errors ++ ["panic:empty tempOrder"] }, [])
    else if bsHasOnly tips bHash || st.tempOrder.getLastD 0 == bHash then
      (setHeight st bHash (st.totalBlocks - 1), [bHash])
    else
      let refNodes := st.tempOrder.reverse.foldl (fun (p : List Nat × Bool) h =>
        if p.2 then p else (h :: p.1, h == bHash)) ([], false)
      (st, refNodes.1)

/-- The block argument handed to `AddBlock`: hash, parent set, timestamp. -/
structure AddInput where
  hash : Nat
  parents : BSet
  timestamp : Int
deriving DecidableEq, Repr, Inhabited

/-- `AddBlock`: the insertion state machine (§4.E). -/
def addBlock (fuel : Nat) (st : DagState) (b : AddInput) : DagState × List Nat :=
  let node : DagBlock :=
    { hash := b.hash, parents := b.parents, children := [], timestamp := b.timestamp,
      pastNum := 0, height := 0 }
  let st := addNode st node
  let st := { st with totalBlocks := st.totalBlocks + 1 }
  let st := if st.lastTime < b.timestamp then { st with lastTime := b.timestamp } else st
  let st := updateTips st node
  let st := calculatePastBlockSetNum fuel st node
  let st := updateCommonBlueSet fuel st b.hash
  let st := updateHourglass fuel st
  updateOrder fuel st b.hash

/-- `GetBlockOrder`: the position of a block in the emitted total order,
scanning the tail and then the stable prefix backwards; -1 (here: `none`)
when absent. -/
def getBlockOrder (st : DagState) (h : Nat) : Option Nat :=
  let totalI : Int := (st.totalBlocks : Int)
  let tscan := st.tempOrder.reverse.foldl (fun (p : Int × Option Int) x =>
    match p.2 with
    | some r => (p.1, some r)
    | none =>
      let r := p.1 - 1
      if x == h then (r, some r) else (r, none)) (totalI, none)
  match tscan.2 with
  | some r => if 0 ≤ r then some r.toNat else none
  | none =>
    let cscan := st.commonOrder.reverse.foldl (fun (p : Int × Option Int) x =>
      match x, p.2 with
      | _, some r => (p.1, some r)
      | none, none => (p.1, none)
      | some b, none =>
        let r := p.1 - 1
        if b == h then (r, some r) else (r, none)) (tscan.1, none)
    match cscan.2 with
    | some r => if 0 ≤ r then some r.toNat else none
    | none => none

/-- An initial, empty DAG state with blue bound `k`. -/
def initDag (k : Nat) : DagState :=
  { genesis := 0, totalBlocks := 0, commonBlueSet := [], lastCommonBlocks := [],
    commonOrder := [], tempOrder := [], tips := none, hourglassBlocks := none,
    lastTime := 0, anticoneSize := k, index := [], errors := [] }

/-- Run a sequence of insertions from the empty DAG. -/
def runDag (fuel : Nat) (k : Nat) (l : List AddInput) : DagState :=
  l.foldl (fun st b => (addBlock fuel st b).1) (initDag k)

/-- A history is topologically valid when each block is fresh and all its
parents are already present. -/
def topoValid (l : List AddInput) : Bool :=
  (l.foldl (fun (p : BSet × Bool) b =>
    (bsAdd b.hash p.1,
     p.2 && !(bsHas p.1 b.hash) && b.parents.all (fun q => bsHas p.1 q))) ([], true)).2

/-- The emitted total order: the stable prefix (non-elided entries of
`commonOrder`) followed by the tail order. -/
def concatTotalOrder (st : DagState) : List Nat :=
  commonOrderBlocks st.commonOrder ++ st.tempOrder

/-- The past set of a block computed by a full traversal of the parent
closure.  This is the reference definition of the claim's
"`|past(b)|` computed by full traversal", used to compare against the
count the engine freezes at insertion. -/
def pastSetByTraversal (fuel : Nat) (st : DagState) (h : Nat) : BSet :=
  match fuel with
  | 0 => []
  | Nat.succ f =>
    match getBlock st h with
    | none => []
    | some b => b.parents.foldl
        (fun acc p => bsAddSet (bsAdd p acc) (pastSetByTraversal f st p)) []

/-- Connecting all transactions of a block in order, recording the journal
(the per-block loop the `connectTransactions` driver runs over
`connectTransaction`). -/
def connectBlockTxs (unsp : Nat → List Nat → Bool) (blockOrder : Nat) :
    UtxoViewpoint → List SpentTxOut → List (Nat × Tx) →
    Except String (UtxoViewpoint × List SpentTxOut)
  | view, j, [] => .ok (view, j)
  | view, j, (i, tx) :: rest =>
    match connectTransaction unsp view tx blockOrder i (some j) with
    | .error e => .error e
    | .ok (v', j') => connectBlockTxs unsp blockOrder v' (j'.getD []) rest

/-! ## Concrete scenarios used by the theorems -/

/-- The S1 scenario: genesis `G = 1`, `B1 = 2` with parents `{G}`,
`B2 = 3` with parents `{B1}`. -/
def scenarioS1 : List AddInput := [⟨1, [], 0⟩, ⟨2, [1], 0⟩, ⟨3, [2], 0⟩]

/-- The state after inserting the S1 chain (blue bound k = 3). -/
def s1State : DagState := runDag 40 3 scenarioS1

/-- Two topological insertion orders of one five-block set:
genesis `1`; `2` and `6` children of `1`; `3` and `4` children of `2`.
History A inserts the sideways genesis child `6` last, history B second. -/
def dagHistA : List AddInput :=
  [⟨1, [], 0⟩, ⟨2, [1], 0⟩, ⟨3, [2], 0⟩, ⟨4, [2], 0⟩, ⟨6, [1], 0⟩]

/-- See `dagHistA`: the same block set inserted in another valid order. -/
def dagHistB : List AddInput :=
  [⟨1, [], 0⟩, ⟨6, [1], 0⟩, ⟨2, [1], 0⟩, ⟨3, [2], 0⟩, ⟨4, [2], 0⟩]

/-- The final states of the two histories. -/
def dagStateA : DagState := runDag 40 3 dagHistA

/-- See `dagStateA`. -/
def dagStateB : DagState := runDag 40 3 dagHistB

/-- A three-block insertion accepted by `AddBlock` in which block `3` names
the non-antichain parent set `{1, 2}` (`1` is itself the parent of `2`). -/
def c2Hist : List AddInput := [⟨1, [], 0⟩, ⟨2, [1], 0⟩, ⟨3, [1, 2], 0⟩]

/-- The state after `c2Hist`. -/
def c2State : DagState := runDag 40 3 c2Hist

/-- A five-block insertion accepted by `AddBlock`: the non-antichain block
`3` (parents `{1, 2}`) and two blocks `4`, `5` with parents `{2, 3}`. -/
def c6Hist : List AddInput :=
  [⟨1, [], 0⟩, ⟨2, [1], 0⟩, ⟨3, [1, 2], 0⟩, ⟨4, [2, 3], 0⟩, ⟨5, [2, 3], 0⟩]

/-- The state after `c6Hist`. -/
def c6State : DagState := runDag 40 3 c6Hist

/-- A five-block insertion with antichain parents throughout: genesis `1`,
`2` child of `1`, `5` and `4` children of `2`, and finally the sideways
genesis child `3`. -/
def c7Hist : List AddInput :=
  [⟨1, [], 0⟩, ⟨2, [1], 0⟩, ⟨5, [2], 0⟩, ⟨4, [2], 0⟩, ⟨3, [1], 0⟩]

/-- The state after `c7Hist`. -/
def c7State : DagState := runDag 40 3 c7Hist

/-- A coinbase transaction used by the disconnection scenario. -/
def c3Tx : Tx :=
  { hash := 10, version := 1, txIns := [], txOuts := [⟨50, [7]⟩], expire := 0,
    isCoinBase := true, txType := 0 }

/-- A block with hash `2` whose parent is block `1`. -/
def c3Block : Block := { hash := 2, parent := 1, order := 5, transactions := [c3Tx] }

/-- An empty view. -/
def c3View : UtxoViewpoint := { entries := [], bestHash := 0 }

/-- A journal record for transaction index 0, input index 0. -/
def c9Record : SpentTxOut :=
  { amount := 50, scriptVersion := 0, pkScript := [7], txIndex := 0, inIndex := 0,
    txVersion := 1, order := 1, isCoinBase := true, hasExpiry := false,
    txType := 0, txFullySpent := true }

/-- A live (not fully spent) output. -/
def c8Out : UtxoOutput := { scriptVersion := 0, pkScript := [7], amount := 50, spent := false }

/-- An entry with one unspent output. -/
def c8Entry : UtxoEntry :=
  { txVersion := 1, order := 1, index := 1, isCoinBase := false,
    hasExpiry := false, txType := 0, modified := false, sparseOutputs := [(0, c8Out)] }

/-- A view holding the live entry `c8Entry` under hash `1`. -/
def c8View : UtxoViewpoint := { entries := [(1, some c8Entry)], bestHash := 0 }

/-- A transaction whose hash collides with the live entry of `c8View`. -/
def c8Tx : Tx :=
  { hash := 1, version := 2, txIns := [], txOuts := [⟨25, [9]⟩], expire := 0,
    isCoinBase := false, txType := 0 }

/-- An entry already present in a view before fetching. -/
def c10Entry : UtxoEntry :=
  { txVersion := 1, order := 4, index := 2, isCoinBase := false,
    hasExpiry := false, txType := 0, modified := false,
    sparseOutputs := [(0, { scriptVersion := 0, pkScript := [3], amount := 9, spent := false })] }

/-- A view that already holds `c10Entry` under hash `5`. -/
def c10View : UtxoViewpoint := { entries := [(5, some c10Entry)], bestHash := 0 }

/-- The round trip of claim C4: connect every transaction of the block in
order (recording the journal), disconnect the block with the recorded
journal, and commit. -/
def roundTrip (unsp : Nat → List Nat → Bool) (view : UtxoViewpoint) (block : Block) :
    Except String UtxoViewpoint :=
  match connectBlockTxs unsp block.order view [] block.transactions.enum with
  | .error e => .error e
  | .ok (v1, j) =>
    match disconnectTransactions v1 block j with
    | .error e => .error e
    | .ok v2 => .ok (commit v2)

/-- The output indices a list of inputs spends inside the entry of hash `h`. -/
def idxsAt (l : List TxIn) (h : Hash) : List Nat :=
  l.filterMap (fun q => if q.prevHash = h then some q.prevOutIndex else none)

/-- The `(referenced hash, referenced index)` pairs of a list of inputs. -/
def inPairs (l : List TxIn) : List (Hash × Nat) :=
  l.map (fun q => (q.prevHash, q.prevOutIndex))

/-- Mark one output spent when its index belongs to `S`. -/
def spendFn (S : List Nat) (k : Nat) (o : UtxoOutput) : UtxoOutput :=
  if S.contains k then { o with spent := true } else o

/-- An entry with the outputs at the indices of `S` marked spent:
the canonical shape of a partially spent entry during the round trip. -/
def spendMark (S : List Nat) (e : UtxoEntry) : UtxoEntry :=
  { e with sparseOutputs := e.sparseOutputs.map (fun p => (p.1, spendFn S p.1 p.2)) }

/-- `spendMark` together with the modified flag the disconnection path
leaves behind: the canonical entry shape during disconnection. -/
def discMark (S : List Nat) (touched : Bool) (e : UtxoEntry) : UtxoEntry :=
  { spendMark S e with modified := if touched then true else e.modified }

/-- The entry a referenced output of `c4V0` lives in. -/
def c4RefEntry : UtxoEntry :=
  { txVersion := 1, order := 0, index := 0, isCoinBase := true,
    hasExpiry := false, txType := 0, modified := false,
    sparseOutputs := [(0, { scriptVersion := 0, pkScript := [7], amount := 50, spent := false })] }

/-- A live entry of `c4V0` whose hash collides with the block's spender. -/
def c4OldEntry : UtxoEntry :=
  { txVersion := 3, order := 2, index := 4, isCoinBase := false,
    hasExpiry := false, txType := 0, modified := false,
    sparseOutputs := [(0, { scriptVersion := 0, pkScript := [8], amount := 40, spent := false })] }

/-- A view with a referenced entry (hash 9) and a live entry (hash 2). -/
def c4V0 : UtxoViewpoint :=
  { entries := [(9, some c4RefEntry), (2, some c4OldEntry)], bestHash := 0 }

/-- The coinbase of the C4 block. -/
def c4Cb : Tx :=
  { hash := 1, version := 1, txIns := [], txOuts := [⟨13, [5]⟩], expire := 0,
    isCoinBase := true, txType := 0 }

/-- The spender of the C4 block; its hash `2` collides with `c4OldEntry`. -/
def c4Sp : Tx :=
  { hash := 2, version := 1, txIns := [⟨9, 0⟩], txOuts := [⟨25, [6]⟩], expire := 0,
    isCoinBase := false, txType := 0 }

/-- The C4 block. -/
def c4Block : Block := { hash := 3, parent := 2, order := 7, transactions := [c4Cb, c4Sp] }

/-- The witness scenario for the amended C4: the same block against a view
with no hash collision. -/
def c4WitnessV0 : UtxoViewpoint := { entries := [(9, some c4RefEntry)], bestHash := 0 }

/-- An input is good for a view when it references an unspent output of a
present entry whose output map is duplicate-free. -/
def goodInput (V0 : UtxoViewpoint) (q : TxIn) : Prop :=
  ∃ e o, alookup q.prevHash V0.entries = some (some e) ∧
    (e.sparseOutputs.map Prod.fst).Nodup ∧
    alookup q.prevOutIndex e.sparseOutputs = some o ∧ o.spent = false

/-- The connect-phase invariant: every key that is not a block-transaction
hash holds its original entry with exactly the already-processed inputs
marked spent. -/
def connInv (V0 : UtxoViewpoint) (txH : List Hash) (procd : List TxIn)
    (es : List (Hash × Option UtxoEntry)) : Prop :=
  ∀ k : Hash, txH.contains k = false →
    alookup k es =
      (alookup k V0.entries).map (Option.map (spendMark (idxsAt procd k)))

/-- The disconnect-phase invariant: every key that is not a
block-transaction hash holds its original entry with the still-unrestored
inputs marked spent, and the modified flag set as soon as one of its
outputs has been restored. -/
def discInv (V0 : UtxoViewpoint) (txH : List Hash) (remIns procd : List TxIn)
    (es : List (Hash × Option UtxoEntry)) : Prop :=
  ∀ k : Hash, txH.contains k = false →
    alookup k es =
      (alookup k V0.entries).map (Option.map (fun e =>
        discMark (idxsAt remIns k) (procd.any (fun q => q.prevHash == k)) e))

/-- The inputs a list of enumerated transactions spends (coinbases spend
nothing). -/
def nonCbIns (txsE : List (Nat × Tx)) : List TxIn :=
  txsE.flatMap (fun p => if p.2.isCoinBase then [] else p.2.txIns)

/-! ## Helper lemmas about the association-list maps -/

theorem alookup_aset_self {α : Type} (k : Nat) (v : α) :
    ∀ l : List (Nat × α), alookup k (aset k v l) = some v
  | [] => by simp [aset, alookup]
  | (k', v') :: rest => by
    by_cases h : k' = k
    · simp [aset, h, alookup]
    · simp [aset, h, alookup, alookup_aset_self k v rest]

theorem alookup_aset_ne {α : Type} (k k' : Nat) (v : α) (hne : k' ≠ k) :
    ∀ l : List (Nat × α), alookup k (aset k' v l) = alookup k l
  | [] => by simp [aset, alookup, hne]
  | (k'', v'') :: rest => by
    by_cases h : k'' = k'
    · subst h
      simp [aset, alookup, hne]
    · simp [aset, h, alookup, alookup_aset_ne k k' v hne rest]

theorem alookup_append_some {α : Type} (k : Nat) (v : α) (l2 : List (Nat × α)) :
    ∀ l1 : List (Nat × α), alookup k l1 = some v → alookup k (l1 ++ l2) = some v
  | [], h => by simp [alookup] at h
  | (k', v') :: rest, h => by
    by_cases hk : k' = k
    · simpa [alookup, hk] using by simpa [alookup, hk] using h
    · simp only [List.cons_append, alookup, if_neg hk] at h ⊢
      exact alookup_append_some k v l2 rest h

theorem alookup_append_none {α : Type} (k : Nat) (l2 : List (Nat × α)) :
    ∀ l1 : List (Nat × α), alookup k l1 = none → alookup k (l1 ++ l2) = alookup k l2
  | [], _ => by simp
  | (k', v') :: rest, h => by
    by_cases hk : k' = k
    · simp [alookup, hk] at h
    · simp only [List.cons_append, alookup, if_neg hk] at h ⊢
      exact alookup_append_none k l2 rest h

theorem alookup_eq_none_iff {α : Type} (k : Nat) :
    ∀ l : List (Nat × α), alookup k l = none ↔ ∀ p ∈ l, p.1 ≠ k
  | [] => by simp [alookup]
  | (k', v') :: rest => by
    by_cases hk : k' = k
    · simp [alookup, hk]
    · simp only [alookup, if_neg hk, List.mem_cons]
      rw [alookup_eq_none_iff k rest]
      constructor
      · rintro h p (rfl | hp)
        · exact hk
        · exact h p hp
      · intro h p hp
        exact h p (Or.inr hp)

/-- The key list of an `aset`: unchanged for a present key, extended by the
new key otherwise. -/
theorem akeys_aset {α : Type} (k : Nat) (v : α) :
    ∀ l : List (Nat × α),
      (aset k v l).map Prod.fst =
        if (alookup k l).isSome then l.map Prod.fst else l.map Prod.fst ++ [k]
  | [] => by simp [aset, alookup]
  | (k', v') :: rest => by
    by_cases hk : k' = k
    · simp [aset, alookup, hk]
    · simp only [aset, if_neg hk, alookup, List.map_cons, akeys_aset k v rest]
      by_cases hs : (alookup k rest).isSome
      · simp [hs, hk]
      · simp [hs, hk]

/-- `aset` keeps the key list duplicate-free. -/
theorem nodupKeys_aset {α : Type} (k : Nat) (v : α) (l : List (Nat × α))
    (h : (l.map Prod.fst).Nodup) : ((aset k v l).map Prod.fst).Nodup := by
  rw [akeys_aset]
  by_cases hs : (alookup k l).isSome
  · simpa [hs] using h
  · have hnone : alookup k l = none := by
      cases hl : alookup k l
      · rfl
      · simp [hl] at hs
    have hnotin : k ∉ l.map Prod.fst := by
      intro hmem
      rcases List.mem_map.mp hmem with ⟨p, hp, hfst⟩
      exact ((alookup_eq_none_iff k l).mp hnone p hp) hfst
    simp only [hs, if_neg]
    simp [List.nodup_append, h, hnotin]

/-- Looking a key up in a key-preserving rewrite of the list. -/
theorem alookup_map_entry {α : Type} (g : Nat → α → α) (k : Nat) :
    ∀ l : List (Nat × α),
      alookup k (l.map (fun p => (p.1, g p.1 p.2))) = (alookup k l).map (g k)
  | [] => by simp [alookup]
  | (k', v') :: rest => by
    by_cases hk : k' = k
    · subst hk
      simp [alookup]
    · simp [alookup, hk, alookup_map_entry g k rest]

/-- In a duplicate-free map, membership determines the lookup. -/
theorem alookup_of_mem_nodup {α : Type} :
    ∀ l : List (Nat × α), (l.map Prod.fst).Nodup → ∀ p ∈ l, alookup p.1 l = some p.2
  | [], _, p, hp => by simp at hp
  | (k', v') :: rest, h, p, hp => by
    simp only [List.map_cons, List.nodup_cons] at h
    rcases List.mem_cons.mp hp with rfl | hp'
    · simp [alookup]
    · have hne : p.1 ≠ k' := by
        intro he
        exact h.1 (he ▸ List.mem_map.mpr ⟨p, hp', rfl⟩)
      have hne' : k' ≠ p.1 := fun he => hne he.symm
      simp only [alookup, if_neg hne']
      exact alookup_of_mem_nodup rest h.2 p hp'

/-- Rewriting a present key of a duplicate-free map in place. -/
theorem aset_eq_map_of_lookup {α : Type} (k : Nat) (v : α) :
    ∀ l : List (Nat × α), (l.map Prod.fst).Nodup → (alookup k l).isSome →
      aset k v l = l.map (fun p => if p.1 = k then (p.1, v) else p)
  | [], _, hs => by simp [alookup] at hs
  | (k', v') :: rest, h, hs => by
    simp only [List.map_cons, List.nodup_cons] at h
    by_cases hk : k' = k
    · subst hk
      have hmap : ∀ p ∈ rest, (if p.1 = k' then (p.1, v) else p) = p := by
        intro p hp
        have : p.1 ≠ k' := by
          intro he
          exact h.1 (he ▸ List.mem_map.mpr ⟨p, hp, rfl⟩)
        simp [this]
      simp only [aset, if_pos rfl, List.map_cons, if_pos rfl]
      rw [List.map_congr_left hmap, List.map_id']
      simp
    · simp only [alookup, if_neg hk] at hs
      simp only [aset, if_neg hk, List.map_cons, if_neg hk]
      congr 1
      exact aset_eq_map_of_lookup k v rest h.2 hs

/-- `foldE` over a concatenation. -/
theorem foldE_append {σ α : Type} (f : σ → α → Except String σ) :
    ∀ (l1 l2 : List α) (s : σ),
      foldE f s (l1 ++ l2) =
        (match foldE f s l1 with
         | .error e => .error e
         | .ok s' => foldE f s' l2)
  | [], l2, s => by simp [foldE]
  | a :: rest, l2, s => by
    simp only [List.cons_append, foldE]
    cases f s a with
    | error e => rfl
    | ok s' => exact foldE_append f rest l2 s'

/-! ## The canonical shape of entries during the round trip -/

theorem spendFn_not_mem (S : List Nat) (k : Nat) (o : UtxoOutput) (h : k ∉ S) :
    spendFn S k o = o := by
  unfold spendFn
  rw [if_neg]
  intro hc
  exact h (List.mem_of_elem_eq_true hc)

theorem spendFn_mem (S : List Nat) (k : Nat) (o : UtxoOutput) (h : k ∈ S) :
    spendFn S k o = { o with spent := true } := by
  unfold spendFn
  rw [if_pos (List.elem_eq_true_of_mem h)]

theorem spendMark_nil (e : UtxoEntry) : spendMark [] e = e := by
  unfold spendMark
  have h : ∀ p ∈ e.sparseOutputs, (p.1, spendFn [] p.1 p.2) = p := by
    intro p _
    rw [spendFn_not_mem _ _ _ (List.not_mem_nil p.1)]
  rw [List.map_congr_left h, List.map_id']

theorem spendMark_congr (S S' : List Nat) (e : UtxoEntry)
    (h : ∀ x, x ∈ S ↔ x ∈ S') : spendMark S e = spendMark S' e := by
  unfold spendMark
  have h' : ∀ p ∈ e.sparseOutputs, ((p.1, spendFn S p.1 p.2) : Nat × UtxoOutput)
      = (p.1, spendFn S' p.1 p.2) := by
    intro p _
    by_cases hm : p.1 ∈ S
    · rw [spendFn_mem _ _ _ hm, spendFn_mem _ _ _ ((h p.1).mp hm)]
    · rw [spendFn_not_mem _ _ _ hm, spendFn_not_mem _ _ _ (fun hx => hm ((h p.1).mpr hx))]
  rw [List.map_congr_left h']

theorem spendMark_keys (S : List Nat) (e : UtxoEntry) :
    (spendMark S e).sparseOutputs.map Prod.fst = e.sparseOutputs.map Prod.fst := by
  unfold spendMark
  rw [List.map_map]
  apply List.map_congr_left
  intro p _
  rfl

theorem alookup_spendMark (S : List Nat) (e : UtxoEntry) (i : Nat) :
    alookup i (spendMark S e).sparseOutputs =
      (alookup i e.sparseOutputs).map (spendFn S i) := by
  unfold spendMark
  exact alookup_map_entry (spendFn S) i e.sparseOutputs

theorem spendOutput_spendMark (S : List Nat) (e : UtxoEntry) (i : Nat) (o : UtxoOutput)
    (hnodup : (e.sparseOutputs.map Prod.fst).Nodup)
    (ho : alookup i e.sparseOutputs = some o) :
    (spendMark S e).spendOutput i = spendMark (i :: S) e := by
  have hmarked : alookup i (spendMark S e).sparseOutputs = some (spendFn S i o) := by
    rw [alookup_spendMark, ho]
    rfl
  have hnodup' : ((spendMark S e).sparseOutputs.map Prod.fst).Nodup := by
    rw [spendMark_keys]
    exact hnodup
  have hspent : { spendFn S i o with spent := true } = { o with spent := true } := by
    unfold spendFn
    by_cases h : i ∈ S <;> simp [h]
  have hstep : (spendMark S e).spendOutput i =
      { spendMark S e with sparseOutputs :=
          (aset i { spendFn S i o with spent := true } (spendMark S e).sparseOutputs) } := by
    unfold UtxoEntry.spendOutput
    rw [hmarked]
  rw [hstep, hspent]
  have hset := aset_eq_map_of_lookup i ({ o with spent := true }) _ hnodup'
    (by rw [hmarked]; rfl)
  rw [hset]
  unfold spendMark
  rw [List.map_map]
  have hmain : ∀ p ∈ e.sparseOutputs,
      ((fun p => if p.1 = i then (p.1, ({ o with spent := true } : UtxoOutput)) else p) ∘
        (fun p => (p.1, spendFn S p.1 p.2))) p = (p.1, spendFn (i :: S) p.1 p.2) := by
    intro p hp
    show (if p.1 = i then (p.1, ({ o with spent := true } : UtxoOutput))
        else (p.1, spendFn S p.1 p.2)) = (p.1, spendFn (i :: S) p.1 p.2)
    by_cases hpi : p.1 = i
    · have hpo : p.2 = o := by
        have := alookup_of_mem_nodup e.sparseOutputs hnodup p hp
        rw [hpi, ho] at this
        exact (Option.some.inj this).symm
      have hmem : p.1 ∈ i :: S := by
        rw [hpi]
        exact List.mem_cons_self i S
      rw [if_pos hpi, spendFn_mem _ _ _ hmem, hpo]
    · have hfn : spendFn (i :: S) p.1 p.2 = spendFn S p.1 p.2 := by
        by_cases hs : p.1 ∈ S
        · rw [spendFn_mem _ _ _ hs, spendFn_mem _ _ _ (List.mem_cons_of_mem i hs)]
        · rw [spendFn_not_mem _ _ _ hs, spendFn_not_mem]
          intro hx
          rcases List.mem_cons.mp hx with h' | h'
          · exact hpi h'
          · exact hs h'
      rw [if_neg hpi, hfn]
  rw [List.map_congr_left hmain]

theorem commitEntry_key (p : Hash × Option UtxoEntry) (q : Hash × Option UtxoEntry)
    (h : commitEntry p = some q) : q.1 = p.1 := by
  unfold commitEntry at h
  cases hp : p.2 with
  | none => rw [hp] at h; exact Option.noConfusion h
  | some e =>
    simp only [hp] at h
    by_cases hm : (e.modified && e.isFullySpent) = true
    · rw [if_pos hm] at h
      exact Option.noConfusion h
    · rw [if_neg hm] at h
      rw [← Option.some.inj h]

theorem alookup_filterMap_commitEntry_notin (k : Hash) :
    ∀ l : List (Hash × Option UtxoEntry), k ∉ l.map Prod.fst →
      alookup k (l.filterMap commitEntry) = none
  | [], _ => rfl
  | p :: rest, h => by
    simp only [List.map_cons, List.mem_cons] at h
    push_neg at h
    cases hp : commitEntry p with
    | none =>
      simp only [List.filterMap_cons, hp]
      exact alookup_filterMap_commitEntry_notin k rest h.2
    | some q =>
      have hq : q.1 ≠ k := by
        rw [commitEntry_key p q hp]
        exact fun he => h.1 he.symm
      simp only [List.filterMap_cons, hp, alookup, if_neg hq]
      exact alookup_filterMap_commitEntry_notin k rest h.2

/-- The pointwise description of `commit` on a duplicate-free view. -/
theorem alookup_commit (k : Hash) :
    ∀ l : List (Hash × Option UtxoEntry), (l.map Prod.fst).Nodup →
      alookup k (l.filterMap commitEntry) =
        (match alookup k l with
         | none => none
         | some none => none
         | some (some e) =>
           if e.modified && e.isFullySpent then none
           else some (some { e with modified := false }))
  | [], _ => by simp [alookup]
  | p :: rest, h => by
    simp only [List.map_cons, List.nodup_cons] at h
    by_cases hk : p.1 = k
    · have hrest : k ∉ rest.map Prod.fst := hk ▸ h.1
      cases hp2 : p.2 with
      | none =>
        have hce : commitEntry p = none := by
          unfold commitEntry
          rw [hp2]
        simp only [List.filterMap_cons, hce, alookup, if_pos hk, hp2]
        exact alookup_filterMap_commitEntry_notin k rest hrest
      | some e =>
        by_cases hm : (e.modified && e.isFullySpent) = true
        · have hce : commitEntry p = none := by
            unfold commitEntry
            simp only [hp2]
            rw [if_pos hm]
          simp only [List.filterMap_cons, hce, alookup, if_pos hk, hp2, hm, if_true]
          exact alookup_filterMap_commitEntry_notin k rest hrest
        · have hce : commitEntry p = some (p.1, some { e with modified := false }) := by
            unfold commitEntry
            simp only [hp2]
            rw [if_neg hm]
          simp only [List.filterMap_cons, hce, alookup, if_pos hk, hp2, hm, if_false]
          simp [hm]
    · cases hp : commitEntry p with
      | none =>
        simp only [List.filterMap_cons, hp, alookup, if_neg hk]
        exact alookup_commit k rest h.2
      | some q =>
        have hq : q.1 ≠ k := by
          rw [commitEntry_key p q hp]
          exact hk
        simp only [List.filterMap_cons, hp, alookup, if_neg hk, if_neg hq]
        exact alookup_commit k rest h.2

/-- One restore step of the disconnection path: on an entry in canonical
shape it flips the referenced output back to unspent and sets the modified
flag. -/
theorem disconnectInput_restore (entries : List (Hash × Option UtxoEntry)) (tx : Tx)
    (txIdx : Nat) (stxos : List SpentTxOut) (j : Nat) (q : TxIn)
    (S : List Nat) (t : Bool) (e : UtxoEntry) (o : UtxoOutput)
    (hj : stxos.length ≠ 0)
    (hcur : alookup q.prevHash entries = some (some (discMark S t e)))
    (hnodup : (e.sparseOutputs.map Prod.fst).Nodup)
    (ho : alookup q.prevOutIndex e.sparseOutputs = some o)
    (hosp : o.spent = false) :
    disconnectInput entries tx txIdx stxos (j, q) =
      .ok (aset q.prevHash
        (some (discMark (S.filter (fun x => !(x == q.prevOutIndex))) true e)) entries) := by
  obtain ⟨stxo, hst⟩ : ∃ s, GetSpentTxOut txIdx j stxos = some s := by
    unfold GetSpentTxOut
    rw [if_neg hj]
    exact ⟨_, rfl⟩
  have hcur' : (alookup q.prevHash entries).join = some (discMark S t e) := by
    rw [hcur]
    rfl
  have hout : alookup q.prevOutIndex (discMark S t e).sparseOutputs =
      some (spendFn S q.prevOutIndex o) := by
    show alookup q.prevOutIndex (spendMark S e).sparseOutputs = _
    rw [alookup_spendMark, ho]
    rfl
  have hmod : ({ discMark S t e with modified := true } : UtxoEntry) = discMark S true e := by
    unfold discMark
    rfl
  have hout' : alookup q.prevOutIndex
      ({ discMark S t e with modified := true } : UtxoEntry).sparseOutputs =
        some (spendFn S q.prevOutIndex o) := hout
  have hbase : ({ o with spent := false } : UtxoOutput) = o := by
    cases o with
    | mk sv pk am sp =>
      simp only at hosp
      subst hosp
      rfl
  have hunspent : ({ spendFn S q.prevOutIndex o with spent := false } : UtxoOutput) = o := by
    unfold spendFn
    by_cases h : S.contains q.prevOutIndex
    · rw [if_pos h]
      exact hbase
    · rw [if_neg h]
      exact hbase
  have hstep : disconnectInput entries tx txIdx stxos (j, q) =
      .ok (aset q.prevHash
        (some ({ ({ discMark S t e with modified := true } : UtxoEntry) with
          sparseOutputs :=
            (aset q.prevOutIndex ({ spendFn S q.prevOutIndex o with spent := false })
              ({ discMark S t e with modified := true } : UtxoEntry).sparseOutputs) }))
        entries) := by
    simp only [disconnectInput, hst, hcur', hout']
  rw [hstep, hunspent]
  have hnodup' : (((discMark S t e).sparseOutputs.map Prod.fst)).Nodup := by
    show ((spendMark S e).sparseOutputs.map Prod.fst).Nodup
    rw [spendMark_keys]
    exact hnodup
  have hset := aset_eq_map_of_lookup q.prevOutIndex o
    (discMark S t e).sparseOutputs hnodup' (by rw [hout]; rfl)
  have hsofinal :
      (aset q.prevOutIndex o (discMark S t e).sparseOutputs) =
        (spendMark (S.filter (fun x => !(x == q.prevOutIndex))) e).sparseOutputs := by
    rw [hset]
    show ((spendMark S e).sparseOutputs.map _) = _
    unfold spendMark
    rw [List.map_map]
    apply List.map_congr_left
    intro p hp
    show (if p.1 = q.prevOutIndex then (p.1, o)
        else (p.1, spendFn S p.1 p.2)) = (p.1, spendFn (S.filter (fun x => !(x == q.prevOutIndex))) p.1 p.2)
    by_cases hpi : p.1 = q.prevOutIndex
    · have hpo : p.2 = o := by
        have := alookup_of_mem_nodup e.sparseOutputs hnodup p hp
        rw [hpi, ho] at this
        exact (Option.some.inj this).symm
      have hnot : p.1 ∉ S.filter (fun x => !(x == q.prevOutIndex)) := by
        intro hmem
        have := List.of_mem_filter hmem
        simp [hpi] at this
      rw [if_pos hpi, spendFn_not_mem _ _ _ hnot, hpo]
    · have hiff : p.1 ∈ S ↔ p.1 ∈ S.filter (fun x => !(x == q.prevOutIndex)) := by
        constructor
        · intro hs
          apply List.mem_filter.mpr
          refine ⟨hs, ?_⟩
          simp [hpi]
        · intro hs
          exact (List.mem_filter.mp hs).1
      rw [if_neg hpi]
      by_cases hs : p.1 ∈ S
      · rw [spendFn_mem _ _ _ hs, spendFn_mem _ _ _ (hiff.mp hs)]
      · rw [spendFn_not_mem _ _ _ hs, spendFn_not_mem _ _ _ (fun hx => hs (hiff.mpr hx))]
  rw [hmod]
  have hfin : ({ discMark S true e with sparseOutputs :=
      (aset q.prevOutIndex o (discMark S true e).sparseOutputs) } : UtxoEntry) =
        discMark (S.filter (fun x => !(x == q.prevOutIndex))) true e := by
    have hso : (aset q.prevOutIndex o (discMark S true e).sparseOutputs) =
        (spendMark (S.filter (fun x => !(x == q.prevOutIndex))) e).sparseOutputs := hsofinal
    rw [hso]
    unfold discMark
    rfl
  rw [hfin]

/-! ## The connect phase preserves the canonical shape -/

theorem idxsAt_nil (k : Hash) : idxsAt [] k = [] := rfl

theorem idxsAt_cons (q : TxIn) (l : List TxIn) (k : Hash) :
    idxsAt (q :: l) k =
      if q.prevHash = k then q.prevOutIndex :: idxsAt l k else idxsAt l k := by
  unfold idxsAt
  rw [List.filterMap_cons]
  by_cases h : q.prevHash = k
  · rw [if_pos h, if_pos h]
  · rw [if_neg h, if_neg h]

theorem idxsAt_append (a b : List TxIn) (k : Hash) :
    idxsAt (a ++ b) k = idxsAt a k ++ idxsAt b k := by
  unfold idxsAt
  rw [List.filterMap_append]

theorem snd_mem_of_mem_enumFrom {α : Type} :
    ∀ (n : Nat) (l : List α) (p : Nat × α), p ∈ List.enumFrom n l → p.2 ∈ l
  | _, [], p, hp => by simp [List.enumFrom] at hp
  | n, a :: rest, p, hp => by
    simp only [List.enumFrom, List.mem_cons] at hp
    rcases hp with rfl | hp
    · exact List.mem_cons_self _ _
    · exact List.mem_cons_of_mem _ (snd_mem_of_mem_enumFrom (n + 1) rest p hp)

theorem snd_mem_of_mem_enum {α : Type} (l : List α) (p : Nat × α)
    (hp : p ∈ l.enum) : p.2 ∈ l :=
  snd_mem_of_mem_enumFrom 0 l p hp

theorem enumFrom_map_snd {α : Type} :
    ∀ (n : Nat) (l : List α), (List.enumFrom n l).map Prod.snd = l
  | _, [] => rfl
  | n, a :: rest => by
    simp only [List.enumFrom, List.map_cons]
    rw [enumFrom_map_snd (n + 1) rest]

theorem enum_map_snd {α : Type} (l : List α) : l.enum.map Prod.snd = l :=
  enumFrom_map_snd 0 l

theorem enumFrom_length {α : Type} :
    ∀ (n : Nat) (l : List α), (List.enumFrom n l).length = l.length
  | _, [] => rfl
  | n, a :: rest => by
    simp only [List.enumFrom, List.length_cons]
    rw [enumFrom_length (n + 1) rest]

theorem enum_length {α : Type} (l : List α) : l.enum.length = l.length :=
  enumFrom_length 0 l

theorem nonCbIns_cons (i : Nat) (t : Tx) (rest : List (Nat × Tx)) :
    nonCbIns ((i, t) :: rest) =
      (if t.isCoinBase then [] else t.txIns) ++ nonCbIns rest := by
  unfold nonCbIns
  rw [List.flatMap_cons]

/-- `AddTxOuts` only touches the transaction's own key, so the canonical
shape of all other keys survives. -/
theorem connInv_addTxOuts (V0 : UtxoViewpoint) (txH : List Hash) (procd : List TxIn)
    (unsp : Nat → List Nat → Bool) (V : UtxoViewpoint) (tx : Tx) (bo bi : Nat)
    (htx : txH.contains tx.hash = true)
    (hinv : connInv V0 txH procd V.entries) :
    connInv V0 txH procd (addTxOuts unsp V tx bo bi).entries := by
  intro k hk
  have hne : tx.hash ≠ k := by
    intro he
    rw [he, hk] at htx
    exact Bool.noConfusion htx
  show alookup k (aset tx.hash (some (addTxOutsEntry unsp V tx bo bi)) V.entries) = _
  rw [alookup_aset_ne k tx.hash _ hne, hinv k hk]

/-- The input loop of a connection step: on a view in canonical shape it
succeeds, extends the journal by one record per input, and marks exactly
the processed outputs spent. -/
theorem connectInputs_spec (V0 : UtxoViewpoint) (txH : List Hash) (bi : Nat) :
    ∀ (insE : List (Nat × TxIn)) (V : UtxoViewpoint) (j : List SpentTxOut)
      (procd : List TxIn),
      (∀ p ∈ insE, goodInput V0 p.2 ∧ txH.contains p.2.prevHash = false) →
      connInv V0 txH procd V.entries →
      (V.entries.map Prod.fst).Nodup →
      ∃ V' j', connectInputs V bi (some j) insE = .ok (V', some j') ∧
        connInv V0 txH (procd ++ insE.map Prod.snd) V'.entries ∧
        j'.length = j.length + insE.length ∧
        (V'.entries.map Prod.fst).Nodup
  | [], V, j, procd, _, hinv, hnd =>
    ⟨V, j, rfl, by simpa using hinv, by simp, hnd⟩
  | (i, q) :: rest, V, j, procd, hgood, hinv, hnd => by
    obtain ⟨⟨e, o, he, hnde, ho, hosp⟩, hqk⟩ := hgood (i, q) (List.mem_cons_self _ _)
    have hgood' : ∀ p ∈ rest, goodInput V0 p.2 ∧ txH.contains p.2.prevHash = false :=
      fun p hp => hgood p (List.mem_cons_of_mem _ hp)
    have hcur : alookup q.prevHash V.entries =
        some (some (spendMark (idxsAt procd q.prevHash) e)) := by
      have h1 := hinv q.prevHash hqk
      rw [he] at h1
      exact h1
    have hent : entryAt V q.prevHash = some (spendMark (idxsAt procd q.prevHash) e) := by
      unfold entryAt
      rw [hcur]
      rfl
    have hso : (spendMark (idxsAt procd q.prevHash) e).spendOutput q.prevOutIndex =
        spendMark (q.prevOutIndex :: idxsAt procd q.prevHash) e :=
      spendOutput_spendMark _ e q.prevOutIndex o hnde ho
    have hinv1 : connInv V0 txH (procd ++ [q])
        (aset q.prevHash
          (some (spendMark (q.prevOutIndex :: idxsAt procd q.prevHash) e)) V.entries) := by
      intro k hk
      by_cases hkq : q.prevHash = k
      · rw [← hkq, alookup_aset_self, he]
        have hmem : ∀ x, x ∈ (q.prevOutIndex :: idxsAt procd q.prevHash) ↔
            x ∈ idxsAt (procd ++ [q]) q.prevHash := by
          intro x
          rw [idxsAt_append, idxsAt_cons, if_pos rfl, idxsAt_nil]
          simp [or_comm]
        rw [spendMark_congr (q.prevOutIndex :: idxsAt procd q.prevHash)
          (idxsAt (procd ++ [q]) q.prevHash) e hmem]
        rfl
      · rw [alookup_aset_ne k q.prevHash _ hkq, hinv k hk]
        have hq : idxsAt (procd ++ [q]) k = idxsAt procd k := by
          rw [idxsAt_append, idxsAt_cons, if_neg hkq, idxsAt_nil, List.append_nil]
        rw [hq]
    have hnd1 : ((aset q.prevHash
        (some (spendMark (q.prevOutIndex :: idxsAt procd q.prevHash) e))
          V.entries).map Prod.fst).Nodup :=
      nodupKeys_aset _ _ _ hnd
    obtain ⟨V', j', hr, hi, hl, hn⟩ :=
      connectInputs_spec V0 txH bi rest
        { V with entries := (aset q.prevHash
            (some (spendMark (q.prevOutIndex :: idxsAt procd q.prevHash) e)) V.entries) }
        (j ++ [{
          amount := (spendMark (q.prevOutIndex :: idxsAt procd q.prevHash)
            e).amountByIndex q.prevOutIndex,
          scriptVersion := (spendMark (q.prevOutIndex :: idxsAt procd q.prevHash)
            e).scriptVersionByIndex q.prevOutIndex,
          pkScript := (spendMark (q.prevOutIndex :: idxsAt procd q.prevHash)
            e).pkScriptByIndex q.prevOutIndex,
          txIndex := bi,
          inIndex := i,
          txVersion := (spendMark (q.prevOutIndex :: idxsAt procd q.prevHash) e).txVersion,
          order := (spendMark (q.prevOutIndex :: idxsAt procd q.prevHash) e).order,
          isCoinBase := (spendMark (q.prevOutIndex :: idxsAt procd q.prevHash) e).isCoinBase,
          hasExpiry := (spendMark (q.prevOutIndex :: idxsAt procd q.prevHash) e).hasExpiry,
          txType := (spendMark (q.prevOutIndex :: idxsAt procd q.prevHash) e).txType,
          txFullySpent := (spendMark (q.prevOutIndex :: idxsAt procd q.prevHash)
            e).isFullySpent }])
        (procd ++ [q]) hgood' hinv1 hnd1
    simp only [connectInputs, hent, hso, List.map_cons, List.length_cons]
    refine ⟨V', j', ?_, ?_, ?_, hn⟩
    · exact hr
    · rwa [List.append_assoc, List.singleton_append] at hi
    · simp only [List.length_append, List.length_singleton] at hl
      omega

/-- The per-block connection loop: on a view in canonical shape it succeeds,
journals every non-coinbase input in order, and leaves every key that is not
a block-transaction hash in canonical shape. -/
theorem connectBlockTxs_spec (V0 : UtxoViewpoint) (txH : List Hash)
    (unsp : Nat → List Nat → Bool) (bo : Nat) :
    ∀ (txsE : List (Nat × Tx)) (V : UtxoViewpoint) (j : List SpentTxOut)
      (procd : List TxIn),
      (∀ p ∈ txsE, txH.contains p.2.hash = true ∧
        (p.2.isCoinBase = false →
          ∀ q ∈ p.2.txIns, goodInput V0 q ∧ txH.contains q.prevHash = false)) →
      connInv V0 txH procd V.entries →
      (V.entries.map Prod.fst).Nodup →
      ∃ V' j', connectBlockTxs unsp bo V j txsE = .ok (V', j') ∧
        connInv V0 txH (procd ++ nonCbIns txsE) V'.entries ∧
        j'.length = j.length + (nonCbIns txsE).length ∧
        (V'.entries.map Prod.fst).Nodup
  | [], V, j, procd, _, hinv, hnd =>
    ⟨V, j, rfl, by simpa [nonCbIns] using hinv, by simp [nonCbIns], hnd⟩
  | (i, t) :: rest, V, j, procd, hgood, hinv, hnd => by
    obtain ⟨hth, hins⟩ := hgood (i, t) (List.mem_cons_self _ _)
    have hgood' : ∀ p ∈ rest, txH.contains p.2.hash = true ∧
        (p.2.isCoinBase = false →
          ∀ q ∈ p.2.txIns, goodInput V0 q ∧ txH.contains q.prevHash = false) :=
      fun p hp => hgood p (List.mem_cons_of_mem _ hp)
    by_cases hcb : t.isCoinBase = true
    · have hinv1 := connInv_addTxOuts V0 txH procd unsp V t bo i hth hinv
      have hnd1 : ((addTxOuts unsp V t bo i).entries.map Prod.fst).Nodup :=
        nodupKeys_aset _ _ _ hnd
      obtain ⟨V', j', hr, hi, hl, hn⟩ :=
        connectBlockTxs_spec V0 txH unsp bo rest (addTxOuts unsp V t bo i) j procd
          hgood' hinv1 hnd1
      refine ⟨V', j', ?_, ?_, ?_, hn⟩
      · simp only [connectBlockTxs, connectTransaction, if_pos hcb, Option.getD_some]
        exact hr
      · rwa [nonCbIns_cons, if_pos hcb, List.nil_append]
      · rw [nonCbIns_cons, if_pos hcb, List.nil_append]
        exact hl
    · have hcb' : t.isCoinBase = false := by
        revert hcb
        cases t.isCoinBase <;> simp
      have hinsGood : ∀ p ∈ t.txIns.enum,
          goodInput V0 p.2 ∧ txH.contains p.2.prevHash = false := by
        intro p hp
        exact hins hcb' p.2 (snd_mem_of_mem_enum t.txIns p hp)
      obtain ⟨V1, j1, hr1, hi1, hl1, hn1⟩ :=
        connectInputs_spec V0 txH i t.txIns.enum V j procd hinsGood hinv hnd
      rw [enum_map_snd] at hi1
      have hinv2 := connInv_addTxOuts V0 txH (procd ++ t.txIns) unsp V1 t bo i hth hi1
      have hnd2 : ((addTxOuts unsp V1 t bo i).entries.map Prod.fst).Nodup :=
        nodupKeys_aset _ _ _ hn1
      obtain ⟨V', j', hr, hi, hl, hn⟩ :=
        connectBlockTxs_spec V0 txH unsp bo rest (addTxOuts unsp V1 t bo i) j1
          (procd ++ t.txIns) hgood' hinv2 hnd2
      refine ⟨V', j', ?_, ?_, ?_, hn⟩
      · simp only [connectBlockTxs, connectTransaction, if_neg hcb, hr1, Option.getD_some]
        exact hr
      · rw [nonCbIns_cons, if_neg hcb, ← List.append_assoc]
        exact hi
      · rw [nonCbIns_cons, if_neg hcb, hl, hl1, enum_length, List.length_append]
        omega

/-! ## The disconnect phase restores the canonical shape -/

theorem mem_idxsAt (l : List TxIn) (h : Hash) (x : Nat) :
    x ∈ idxsAt l h ↔ (h, x) ∈ inPairs l := by
  unfold idxsAt inPairs
  rw [List.mem_filterMap, List.mem_map]
  constructor
  · rintro ⟨q, hq, hfx⟩
    refine ⟨q, hq, ?_⟩
    by_cases hqh : q.prevHash = h
    · have hix : q.prevOutIndex = x := Option.some.inj (by rwa [if_pos hqh] at hfx)
      rw [hqh, hix]
    · rw [if_neg hqh] at hfx
      exact Option.noConfusion hfx
  · rintro ⟨q, hq, hfx⟩
    refine ⟨q, hq, ?_⟩
    have h1 : q.prevHash = h := congrArg Prod.fst hfx
    have h2 : q.prevOutIndex = x := congrArg Prod.snd hfx
    rw [if_pos h1, h2]

theorem inPairs_append (a b : List TxIn) :
    inPairs (a ++ b) = inPairs a ++ inPairs b := by
  unfold inPairs
  rw [List.map_append]

theorem any_congr {α : Type} (l l' : List α) (f : α → Bool)
    (h : ∀ x, x ∈ l ↔ x ∈ l') : l.any f = l'.any f := by
  by_cases hl : l.any f = true
  · rw [hl]
    rcases List.any_eq_true.mp hl with ⟨x, hx, hfx⟩
    exact (List.any_eq_true.mpr ⟨x, (h x).mp hx, hfx⟩).symm
  · have hl' : ¬l'.any f = true := by
      intro hc
      rcases List.any_eq_true.mp hc with ⟨x, hx, hfx⟩
      exact hl (List.any_eq_true.mpr ⟨x, (h x).mpr hx, hfx⟩)
    rw [Bool.not_eq_true] at hl hl'
    rw [hl, hl']

/-- The disconnect invariant only depends on the unrestored inputs through
their referenced pairs and on the restored inputs through membership. -/
theorem discInv_congr (V0 : UtxoViewpoint) (txH : List Hash)
    (rem rem' procd procd' : List TxIn) (es : List (Hash × Option UtxoEntry))
    (hrem : ∀ x, x ∈ inPairs rem ↔ x ∈ inPairs rem')
    (hpr : ∀ x, x ∈ procd ↔ x ∈ procd')
    (h : discInv V0 txH rem procd es) : discInv V0 txH rem' procd' es := by
  intro k hk
  rw [h k hk]
  have hfe : (fun e => discMark (idxsAt rem k) (procd.any fun q => q.prevHash == k) e) =
      (fun e => discMark (idxsAt rem' k) (procd'.any fun q => q.prevHash == k) e) := by
    funext e
    unfold discMark
    rw [any_congr procd procd' _ hpr,
      spendMark_congr (idxsAt rem k) (idxsAt rem' k) e (fun x => by
        rw [mem_idxsAt, mem_idxsAt]
        exact hrem (k, x))]
  rw [hfe]

/-- The inner backward loop of a disconnection step: each processed input is
removed from the unrestored set, with the modified flag recorded, and keys
with a block-transaction hash are untouched. -/
theorem disconnectInputs_spec (V0 : UtxoViewpoint) (txH : List Hash)
    (tx : Tx) (txIdx : Nat) (stxos : List SpentTxOut) :
    ∀ (insE : List (Nat × TxIn)) (es : List (Hash × Option UtxoEntry))
      (pend procd : List TxIn),
      (∀ p ∈ insE, goodInput V0 p.2 ∧ txH.contains p.2.prevHash = false) →
      (∀ p ∈ insE, stxos.length ≠ 0) →
      (inPairs (insE.map Prod.snd ++ pend)).Nodup →
      discInv V0 txH (insE.map Prod.snd ++ pend) procd es →
      (es.map Prod.fst).Nodup →
      ∃ es', foldE (fun es2 p => disconnectInput es2 tx txIdx stxos p) es insE = .ok es' ∧
        discInv V0 txH pend (procd ++ insE.map Prod.snd) es' ∧
        (es'.map Prod.fst).Nodup ∧
        (∀ k, txH.contains k = true → alookup k es' = alookup k es)
  | [], es, pend, procd, _, _, _, hinv, hnd =>
    ⟨es, rfl, by simpa using hinv, hnd, fun _ _ => rfl⟩
  | (jdx, q) :: rest, es, pend, procd, hgood, hj, hpairs, hinv, hnd => by
    obtain ⟨⟨e, o, he, hnde, ho, hosp⟩, hqk⟩ := hgood (jdx, q) (List.mem_cons_self _ _)
    have hgood' : ∀ p ∈ rest, goodInput V0 p.2 ∧ txH.contains p.2.prevHash = false :=
      fun p hp => hgood p (List.mem_cons_of_mem _ hp)
    have hj' : ∀ p ∈ rest, stxos.length ≠ 0 :=
      fun p hp => hj p (List.mem_cons_of_mem _ hp)
    have hjq : stxos.length ≠ 0 := hj (jdx, q) (List.mem_cons_self _ _)
    have hpairs0 : inPairs (((jdx, q) :: rest).map Prod.snd ++ pend) =
        (q.prevHash, q.prevOutIndex) :: inPairs (rest.map Prod.snd ++ pend) := by
      simp [inPairs]
    rw [hpairs0] at hpairs
    have hpnotin : (q.prevHash, q.prevOutIndex) ∉ inPairs (rest.map Prod.snd ++ pend) :=
      (List.nodup_cons.mp hpairs).1
    have hpairs' : (inPairs (rest.map Prod.snd ++ pend)).Nodup :=
      (List.nodup_cons.mp hpairs).2
    have hScons : idxsAt (((jdx, q) :: rest).map Prod.snd ++ pend) q.prevHash =
        q.prevOutIndex :: idxsAt (rest.map Prod.snd ++ pend) q.prevHash := by
      simp only [List.map_cons, List.cons_append]
      rw [idxsAt_cons, if_pos rfl]
    have hcur : alookup q.prevHash es = some (some (discMark
        (q.prevOutIndex :: idxsAt (rest.map Prod.snd ++ pend) q.prevHash)
        (procd.any fun r => r.prevHash == q.prevHash) e)) := by
      have h1 := hinv q.prevHash hqk
      rw [he, hScons] at h1
      exact h1
    have hrest := disconnectInput_restore es tx txIdx stxos jdx q
      (q.prevOutIndex :: idxsAt (rest.map Prod.snd ++ pend) q.prevHash)
      (procd.any fun r => r.prevHash == q.prevHash) e o hjq hcur hnde ho hosp
    have hfilter : (q.prevOutIndex ::
        idxsAt (rest.map Prod.snd ++ pend) q.prevHash).filter
          (fun x => !(x == q.prevOutIndex)) =
            idxsAt (rest.map Prod.snd ++ pend) q.prevHash := by
      have hmemS : ∀ x ∈ idxsAt (rest.map Prod.snd ++ pend) q.prevHash,
          (!(x == q.prevOutIndex)) = true := by
        intro x hx
        have hxp : (q.prevHash, x) ∈ inPairs (rest.map Prod.snd ++ pend) :=
          (mem_idxsAt _ _ _).mp hx
        have hxne : x ≠ q.prevOutIndex := by
          intro hxe
          rw [hxe] at hxp
          exact hpnotin hxp
        simp [hxne]
      rw [List.filter_cons_of_neg (by simp), List.filter_eq_self.mpr hmemS]
    rw [hfilter] at hrest
    have hany : (procd ++ [q]).any (fun r => r.prevHash == q.prevHash) = true :=
      List.any_eq_true.mpr ⟨q, by simp, by simp⟩
    have hinv1 : discInv V0 txH (rest.map Prod.snd ++ pend) (procd ++ [q])
        (aset q.prevHash
          (some (discMark (idxsAt (rest.map Prod.snd ++ pend) q.prevHash) true e))
          es) := by
      intro k hk
      by_cases hkq : q.prevHash = k
      · rw [← hkq, alookup_aset_self, he]
        show some (some (discMark (idxsAt (rest.map Prod.snd ++ pend) q.prevHash) true e)) =
          some (some (discMark (idxsAt (rest.map Prod.snd ++ pend) q.prevHash)
            ((procd ++ [q]).any fun r => r.prevHash == q.prevHash) e))
        rw [hany]
      · rw [alookup_aset_ne k q.prevHash _ hkq, hinv k hk]
        have hidx : idxsAt (((jdx, q) :: rest).map Prod.snd ++ pend) k =
            idxsAt (rest.map Prod.snd ++ pend) k := by
          simp only [List.map_cons, List.cons_append]
          rw [idxsAt_cons, if_neg hkq]
        have hbq : (q.prevHash == k) = false := beq_eq_false_iff_ne.mpr hkq
        have hany3 : (procd ++ [q]).any (fun r => r.prevHash == k) =
            procd.any (fun r => r.prevHash == k) := by
          rw [List.any_append]
          simp [hbq]
        rw [hidx, hany3]
    have hnd1 : ((aset q.prevHash
        (some (discMark (idxsAt (rest.map Prod.snd ++ pend) q.prevHash) true e))
          es).map Prod.fst).Nodup := nodupKeys_aset _ _ _ hnd
    obtain ⟨es', hr, hi, hn, hpres⟩ :=
      disconnectInputs_spec V0 txH tx txIdx stxos rest
        (aset q.prevHash
          (some (discMark (idxsAt (rest.map Prod.snd ++ pend) q.prevHash) true e)) es)
        pend (procd ++ [q]) hgood' hj' hpairs' hinv1 hnd1
    refine ⟨es', ?_, ?_, hn, ?_⟩
    · simp only [foldE, hrest]
      exact hr
    · simp only [List.map_cons]
      rwa [List.append_assoc, List.singleton_append] at hi
    · intro k hk
      have hne2 : q.prevHash ≠ k := by
        intro he2
        rw [he2] at hqk
        rw [hk] at hqk
        exact Bool.noConfusion hqk
      rw [hpres k hk, alookup_aset_ne k q.prevHash _ hne2]

/-- The outer backward loop of `disconnectTransactions`: every block
transaction's entry is cleared, every journaled spend is restored, and every
key outside the block's reach is untouched. -/
theorem disconnectTxs_spec (V0 : UtxoViewpoint) (txH : List Hash)
    (bo : Nat) (stxos : List SpentTxOut) :
    ∀ (txsE : List (Nat × Tx)) (es : List (Hash × Option UtxoEntry))
      (pend procd : List TxIn),
      (∀ p ∈ txsE, p.1 ≠ 0 ∧ txH.contains p.2.hash = true ∧
        ∀ q ∈ p.2.txIns, goodInput V0 q ∧ txH.contains q.prevHash = false) →
      (∀ p ∈ txsE, ∀ q ∈ p.2.txIns, stxos.length ≠ 0) →
      (txsE.map (fun p => p.2.hash)).Nodup →
      (inPairs (txsE.flatMap (fun p => p.2.txIns) ++ pend)).Nodup →
      discInv V0 txH (txsE.flatMap (fun p => p.2.txIns) ++ pend) procd es →
      (es.map Prod.fst).Nodup →
      ∃ es', foldE (disconnectTx bo stxos) es txsE = .ok es' ∧
        discInv V0 txH pend (procd ++ txsE.flatMap (fun p => p.2.txIns)) es' ∧
        (es'.map Prod.fst).Nodup ∧
        (∀ p ∈ txsE, ∃ e', alookup p.2.hash es' = some (some e') ∧
          e'.modified = true ∧ e'.sparseOutputs = []) ∧
        (∀ k, txH.contains k = true → (∀ p ∈ txsE, p.2.hash ≠ k) →
          alookup k es' = alookup k es)
  | [], es, pend, procd, _, _, _, _, hinv, hnd =>
    ⟨es, rfl, by simpa using hinv, hnd,
      fun p hp => absurd hp (List.not_mem_nil p), fun _ _ _ => rfl⟩
  | (i, t) :: rest, es, pend, procd, hgood, hj, hhn, hpairs, hinv, hnd => by
    obtain ⟨hi0, hth, hqs⟩ := hgood (i, t) (List.mem_cons_self _ _)
    have hgood' : ∀ p ∈ rest, p.1 ≠ 0 ∧ txH.contains p.2.hash = true ∧
        ∀ q ∈ p.2.txIns, goodInput V0 q ∧ txH.contains q.prevHash = false :=
      fun p hp => hgood p (List.mem_cons_of_mem _ hp)
    have hj' : ∀ p ∈ rest, ∀ q ∈ p.2.txIns, stxos.length ≠ 0 :=
      fun p hp => hj p (List.mem_cons_of_mem _ hp)
    simp only [List.map_cons, List.nodup_cons] at hhn
    have hne0 : (i == 0) = false := beq_eq_false_iff_ne.mpr hi0
    obtain ⟨e1, hred⟩ : ∃ e1 : UtxoEntry,
        disconnectTx bo stxos es (i, t) =
          foldE (fun es2 p => disconnectInput es2 t i stxos p)
            (aset t.hash (some { e1 with modified := true, sparseOutputs := [] }) es)
            t.txIns.enum.reverse := by
      cases hsc : (alookup t.hash es).join with
      | none =>
        refine ⟨newUtxoEntry t.version bo i false (t.expire ≠ 0) 0, ?_⟩
        simp only [disconnectTx, hsc, hne0, Bool.false_eq_true, if_false]
      | some e0 =>
        refine ⟨e0, ?_⟩
        simp only [disconnectTx, hsc, hne0, Bool.false_eq_true, if_false]
    have hneT : ∀ k, txH.contains k = false → t.hash ≠ k := by
      intro k hk he2
      rw [he2] at hth
      rw [hk] at hth
      exact Bool.noConfusion hth
    have hinv1 : discInv V0 txH
        (((i, t) :: rest).flatMap (fun p => p.2.txIns) ++ pend) procd
        (aset t.hash (some { e1 with modified := true, sparseOutputs := [] }) es) := by
      intro k hk
      rw [alookup_aset_ne k t.hash _ (hneT k hk)]
      exact hinv k hk
    have hnd1 : ((aset t.hash (some { e1 with modified := true, sparseOutputs := [] })
        es).map Prod.fst).Nodup := nodupKeys_aset _ _ _ hnd
    have hlist : ((i, t) :: rest).flatMap (fun p => p.2.txIns) ++ pend =
        t.txIns ++ (rest.flatMap (fun p => p.2.txIns) ++ pend) := by
      rw [List.flatMap_cons, List.append_assoc]
    rw [hlist] at hinv1 hpairs
    have hmapsnd : (t.txIns.enum.reverse).map Prod.snd = t.txIns.reverse := by
      rw [List.map_reverse, enum_map_snd]
    have hperm : List.Perm (t.txIns ++ (rest.flatMap (fun p => p.2.txIns) ++ pend))
        (t.txIns.reverse ++ (rest.flatMap (fun p => p.2.txIns) ++ pend)) :=
      ((List.reverse_perm t.txIns).symm).append_right _
    have hpairsPerm := hperm.map (fun r => (r.prevHash, r.prevOutIndex))
    have hpairs1 : (inPairs (t.txIns.reverse ++
        (rest.flatMap (fun p => p.2.txIns) ++ pend))).Nodup :=
      hpairsPerm.nodup hpairs
    have hinv2 : discInv V0 txH
        (t.txIns.reverse ++ (rest.flatMap (fun p => p.2.txIns) ++ pend)) procd
        (aset t.hash (some { e1 with modified := true, sparseOutputs := [] }) es) :=
      discInv_congr V0 txH _ _ procd procd _
        (fun x => hpairsPerm.mem_iff) (fun x => Iff.rfl) hinv1
    rw [← hmapsnd] at hpairs1 hinv2
    have hgoodIn : ∀ p ∈ t.txIns.enum.reverse,
        goodInput V0 p.2 ∧ txH.contains p.2.prevHash = false := by
      intro p hp
      exact hqs p.2 (snd_mem_of_mem_enum _ p (List.mem_reverse.mp hp))
    have hjIn : ∀ p ∈ t.txIns.enum.reverse, stxos.length ≠ 0 := by
      intro p hp
      exact hj (i, t) (List.mem_cons_self _ _) p.2
        (snd_mem_of_mem_enum _ p (List.mem_reverse.mp hp))
    obtain ⟨es2, hr2, hi2, hn2, hpres2⟩ :=
      disconnectInputs_spec V0 txH t i stxos t.txIns.enum.reverse
        (aset t.hash (some { e1 with modified := true, sparseOutputs := [] }) es)
        (rest.flatMap (fun p => p.2.txIns) ++ pend) procd hgoodIn hjIn hpairs1 hinv2 hnd1
    rw [hmapsnd] at hi2
    have hpairs2 : (inPairs (rest.flatMap (fun p => p.2.txIns) ++ pend)).Nodup := by
      rw [inPairs_append] at hpairs
      exact hpairs.of_append_right
    obtain ⟨es', hr3, hi3, hn3, hclr3, hpres3⟩ :=
      disconnectTxs_spec V0 txH bo stxos rest es2 pend (procd ++ t.txIns.reverse)
        hgood' hj' hhn.2 hpairs2 hi2 hn2
    have hkrest : ∀ p ∈ rest, p.2.hash ≠ t.hash := by
      intro p hp he2
      exact hhn.1 (List.mem_map.mpr ⟨p, hp, he2⟩)
    have hheadSet : alookup t.hash es' =
        some (some { e1 with modified := true, sparseOutputs := [] }) := by
      rw [hpres3 t.hash hth hkrest, hpres2 t.hash hth, alookup_aset_self]
    refine ⟨es', ?_, ?_, hn3, ?_, ?_⟩
    · have hdt : disconnectTx bo stxos es (i, t) = .ok es2 := by
        rw [hred]
        exact hr2
      simp only [foldE, hdt]
      exact hr3
    · have hflat : ((i, t) :: rest).flatMap (fun p => p.2.txIns) =
          t.txIns ++ rest.flatMap (fun p => p.2.txIns) := by
        rw [List.flatMap_cons]
      rw [hflat, ← List.append_assoc]
      refine discInv_congr V0 txH pend pend _ _ es' (fun x => Iff.rfl) ?_ hi3
      intro x
      simp [List.mem_append, List.mem_reverse]
    · intro p hp
      rcases List.mem_cons.mp hp with rfl | hp'
      · exact ⟨{ e1 with modified := true, sparseOutputs := [] }, hheadSet, rfl, rfl⟩
      · exact hclr3 p hp'
    · intro k hk hkne
      have hkt : t.hash ≠ k := hkne (i, t) (List.mem_cons_self _ _)
      rw [hpres3 k hk (fun p hp => hkne p (List.mem_cons_of_mem _ hp)), hpres2 k hk,
        alookup_aset_ne k t.hash _ hkt]

/-! ## Assembling the round trip -/

theorem fst_ge_of_mem_enumFrom {α : Type} :
    ∀ (n : Nat) (l : List α) (p : Nat × α), p ∈ List.enumFrom n l → n ≤ p.1
  | _, [], p, hp => by simp [List.enumFrom] at hp
  | n, a :: rest, p, hp => by
    simp only [List.enumFrom, List.mem_cons] at hp
    rcases hp with rfl | hp
    · exact Nat.le_refl n
    · exact Nat.le_trans (Nat.le_succ n) (fst_ge_of_mem_enumFrom (n + 1) rest p hp)

theorem mem_enumFrom_of_mem {α : Type} :
    ∀ (n : Nat) (l : List α) (a : α), a ∈ l → ∃ i, (i, a) ∈ List.enumFrom n l
  | _, [], a, ha => absurd ha (List.not_mem_nil a)
  | n, b :: rest, a, ha => by
    rcases List.mem_cons.mp ha with rfl | h2
    · exact ⟨n, List.mem_cons_self _ _⟩
    · rcases mem_enumFrom_of_mem (n + 1) rest a h2 with ⟨i, hi⟩
      exact ⟨i, List.mem_cons_of_mem _ hi⟩

theorem enumFrom_map_comp {α β : Type} (f : α → β) :
    ∀ (n : Nat) (l : List α), (List.enumFrom n l).map (fun p => f p.2) = l.map f
  | _, [] => rfl
  | n, a :: rest => by
    show List.map (fun p => f p.2) ((n, a) :: List.enumFrom (n + 1) rest) = _
    rw [List.map_cons, List.map_cons, enumFrom_map_comp f (n + 1) rest]

theorem enumFrom_flatMap_snd {α β : Type} (f : α → List β) :
    ∀ (n : Nat) (l : List α), (List.enumFrom n l).flatMap (fun p => f p.2) = l.flatMap f
  | _, [] => rfl
  | n, a :: rest => by
    show ((n, a) :: List.enumFrom (n + 1) rest).flatMap (fun p => f p.2) = _
    rw [List.flatMap_cons, List.flatMap_cons, enumFrom_flatMap_snd f (n + 1) rest]

theorem nonCbIns_enumFrom :
    ∀ (rest : List Tx) (n : Nat), (∀ t ∈ rest, t.isCoinBase = false) →
      nonCbIns (List.enumFrom n rest) = rest.flatMap Tx.txIns
  | [], _, _ => rfl
  | t :: rest, n, h => by
    have ht : t.isCoinBase = false := h t (List.mem_cons_self _ _)
    show nonCbIns ((n, t) :: List.enumFrom (n + 1) rest) = _
    rw [nonCbIns_cons, if_neg (by simp [ht]),
      nonCbIns_enumFrom rest (n + 1) (fun u hu => h u (List.mem_cons_of_mem _ hu)),
      List.flatMap_cons]

theorem alookup_mem {α : Type} (k : Nat) (v : α) :
    ∀ l : List (Nat × α), alookup k l = some v → (k, v) ∈ l
  | [], h => Option.noConfusion h
  | (k', v') :: rest, h => by
    by_cases hk : k' = k
    · subst hk
      simp only [alookup, if_pos rfl] at h
      rw [← Option.some.inj h]
      exact List.mem_cons_self _ _
    · simp only [alookup, if_neg hk] at h
      exact List.mem_cons_of_mem _ (alookup_mem k v rest h)

theorem discMark_nil_true (e : UtxoEntry) :
    discMark [] true e = { e with modified := true } := by
  unfold discMark
  rw [spendMark_nil]
  rfl

theorem discMark_nil_false (e : UtxoEntry) : discMark [] false e = e := by
  unfold discMark
  rw [spendMark_nil]
  rfl

/-! ## Theorems for the claims -/

/-- C1: the claim states that inserting the same block set in any two valid
topological orders yields bit-identical `common_order` and a `temp_order`
depending only on the final tip set.  The code violates this: `dagHistA`
and `dagHistB` insert the same five blocks in two valid topological orders
and reach the same final tip set, yet history A ends with
`common_order = [1, 2]` and history B with `common_order = [1]` — block 2
even receives two different order heights — and in history A the code's own
post-hoc order check fails.  (Inserting the sideways genesis child `6` last
takes the `parents.HasOnly(genesis)` branch of `updateCommonBlueSet`, which
resets `lastCommonBlocks` to the genesis without rolling `commonOrder`
back.) -/
theorem C1_insertion_order_changes_emitted_order :
    topoValid dagHistA = true ∧ topoValid dagHistB = true ∧
    List.Perm dagHistA dagHistB ∧
    dagStateA.tips = dagStateB.tips ∧
    dagStateA.commonOrder = [some 1, some 2] ∧
    dagStateB.commonOrder = [some 1] ∧
    dagStateA.commonOrder ≠ dagStateB.commonOrder ∧
    heightOf dagStateA 2 = 2 ∧ heightOf dagStateB 2 = 1 ∧
    dagStateA.errors = ["Order error:The number is a problem"] ∧
    dagStateB.errors = [] := by decide

/-- C2: the claim states that for every block accepted by `AddBlock` the
frozen past-set count equals `|past(b)|` by full traversal, and equals
`p.past_count + |anticone(p) ∩ past(b)| + 1` for the max-past parent `p`.
The code violates this: `AddBlock` accepts block `3` of `c2Hist` (parent
set `{1, 2}`, not an antichain since `1` is the parent of `2`) and freezes
`past_count(3) = 2 − 1 = 1` — it applies the parent formula to an arbitrary
first parent of the Go map iteration (here `1`) — while the full traversal
gives `|past(3)| = 2`, which is exactly what the claim's own max-past-parent
formula (with `p = 2`) yields. -/
theorem C2_frozen_past_count_disagrees_with_traversal :
    topoValid c2Hist = true ∧
    pastNumOf c2State 3 = 1 ∧
    (pastSetByTraversal 40 c2State 3).length = 2 ∧
    pastNumOf c2State 2 +
      (bsIntersection (getAnticone 40 c2State ((getBlock c2State 2).getD default) none)
        (pastSetByTraversal 40 c2State 3)).length + 1 = 2 := by decide

/-- C3: the claim states that after `disconnect_transactions` the view's
best hash equals the id of the disconnected block's parent.  The code ends
with `view.SetBestHash(block.Hash())` — the hash of the disconnected block
itself — contradicting its own comment ("to the previous block"): on
`c3Block` (hash 2, parent 1) the resulting best hash is 2, not 1. -/
theorem C3_disconnect_sets_best_to_disconnected_block :
    (disconnectTransactions c3View c3Block []).toOption.map (fun v => v.bestHash)
      = some c3Block.hash ∧
    c3Block.hash = 2 ∧ c3Block.parent = 1 := by decide

/-- C5 counterexample: on the S1 chain the code's hourglass set is not the
claimed `{B2}` (= `{3}`). -/
theorem C5_counterexample_hourglass :
    s1State.hourglassBlocks ≠ some [3] := by decide

/-- C5 amended: inserting G, then B1 with parents {G}, then B2 with parents
{B1} yields tips = {B2}, common_order = [G], temp_order = [B1, B2] — as the
claim states — but hourglass = {G, B1}: `updateHourglass` starts its search
from the parents of the tips, so the tip B2 itself is never examined, and
the walk adds B1 (whose anticone is empty) while keeping the genesis. -/
theorem C5_amended_linear_chain_state :
    s1State.tips = some [3] ∧
    s1State.commonOrder = [some 1] ∧
    s1State.tempOrder = [2, 3] ∧
    s1State.hourglassBlocks = some [1, 2] ∧
    s1State.errors = [] := by decide

/-- C6: the claim states that in every reachable state, every block with
positive order height has all its parents at strictly smaller positions in
`common_order · temp_order`.  The code violates this: after `c6Hist`
(accepted by `AddBlock`), block `4` has order height 2 and parent `3`, yet
block `3` does not occur in the emitted total order at all (the engine also
logs its own order-count error in the same state). -/
theorem C6_parent_absent_from_total_order :
    heightOf c6State 4 > 0 ∧
    bsHas (((getBlock c6State 4).getD default).parents) 3 = true ∧
    (concatTotalOrder c6State).contains 4 = true ∧
    (concatTotalOrder c6State).contains 3 = false ∧
    heightOf c6State 3 > 0 ∧
    c6State.errors = ["Order error:The number is a problem"] := by decide

/-- C7: the claim states that after every successful `AddBlock` the number
of blocks held in `common_order` plus the length of `temp_order` equals the
number of indexed blocks.  The code violates this on `c7Hist`, whose
parent sets are all antichains: the final sideways genesis child takes the
`parents.HasOnly(genesis)` branch, `lastCommonBlocks` falls back to the
genesis while `common_order` keeps `[1, 2]`, the rebuilt `temp_order`
contains block `2` again, the counts give 2 + 4 = 6 ≠ 5, and the code's own
check logs "Order error:The number is a problem". -/
theorem C7_order_count_mismatch :
    (commonOrderBlocks c7State.commonOrder).length = 2 ∧
    c7State.tempOrder.length = 4 ∧
    c7State.totalBlocks = 5 ∧
    (commonOrderBlocks c7State.commonOrder).contains 2 = true ∧
    c7State.tempOrder.contains 2 = true ∧
    c7State.errors = ["Order error:The number is a problem"] := by decide

/-- C9: the claim states that `GetSpentTxOut` signals absence when no
journal record matches.  The code violates this: on a nonempty journal with
no record for `(1, 1)` it returns a pointer to a zero-valued stack local —
a valid-looking all-zero `SpentTxOut` — instead of nil. -/
theorem C9_miss_returns_zero_valued_record :
    GetSpentTxOut 1 1 [c9Record] = some zeroSpentTxOut ∧
    GetSpentTxOut 1 1 [] = none ∧
    zeroSpentTxOut.txFullySpent = false := by decide

/-- C8 counterexample: the claim states `add_tx_outs` fails with
`DuplicateLiveTx` when it would replace an entry that still has an unspent
output.  The code has no failure path at all: on `c8View`, whose entry for
hash 1 is live (`isFullySpent = false`), `AddTxOuts` simply performs the
replacement — the entry comes back refreshed (order 9, index 3, modified,
outputs reset from the new transaction). -/
theorem C8_counterexample_live_replacement_succeeds :
    c8Entry.isFullySpent = false ∧
    lookupEntry (addTxOuts (fun _ _ => false) c8View c8Tx 9 3) 1 =
      some { txVersion := 1, order := 9, index := 3, isCoinBase := false,
             hasExpiry := false, txType := 0, modified := true,
             sparseOutputs := [(0, { scriptVersion := 0, pkScript := [9],
                                     amount := 25, spent := false })] } := by decide

/-- C10 counterexample: the claim states that after `fetchUtxosMain` every
requested hash the store lacks is present in the view with a nil value and
`LookupEntry` returns nil for it.  That fails for a hash that was already
in the view: here hash `5` is requested, the store lacks it, but the view
keeps its pre-existing non-nil entry and `LookupEntry` is non-nil. -/
theorem C10_counterexample_preexisting_entry_kept :
    alookup 5 (fetchUtxosMain (fun _ => none) c10View [5]).entries = some (some c10Entry) ∧
    lookupEntry (fetchUtxosMain (fun _ => none) c10View [5]) 5 ≠ none := by decide

/-- C4 counterexample: the claim states the connect/disconnect/commit round
trip restores every view for every block whose inputs are resolvable.  It
fails when a block transaction's hash collides with a live entry of the
view (the situation §4.F itself calls undefined behaviour): on `c4V0`,
whose live entry under hash 2 collides with the spender `c4Sp`, the round
trip ends with no entry under hash 2 at all, while committing the original
view keeps `c4OldEntry` — the 40-unit output is destroyed. -/
theorem C4_counterexample_hash_collision :
    (roundTrip (fun _ _ => false) c4V0 c4Block).toOption.map
        (fun v => alookup 2 v.entries) = some none ∧
    alookup 2 (commit c4V0).entries = some (some c4OldEntry) ∧
    c4OldEntry.isFullySpent = false := by decide

/-- C8 amended: `add_tx_outs` has no failure path at all — there is no
`DuplicateLiveTx` check anywhere — and it stores the refreshed entry for
the transaction unconditionally, whether or not the existing entry is
fully spent. -/
theorem C8_amended_addTxOuts_always_replaces (unsp : Nat → List Nat → Bool)
    (view : UtxoViewpoint) (tx : Tx) (bo bi : Nat) :
    ∃ e, alookup tx.hash (addTxOuts unsp view tx bo bi).entries = some (some e) ∧
      e.modified = true ∧ e.order = bo ∧ e.index = bi := by
  refine ⟨addTxOutsEntry unsp view tx bo bi, alookup_aset_self _ _ _, ?_, ?_, ?_⟩ <;>
    · unfold addTxOutsEntry
      cases lookupEntry view tx.hash <;> simp [newUtxoEntry]

/-- A committed view never maps a key to a stored nil entry. -/
theorem alookup_filterMap_commitEntry (k : Hash) :
    ∀ l : List (Hash × Option UtxoEntry), alookup k (l.filterMap commitEntry) ≠ some none
  | [] => by simp [alookup]
  | p :: rest => by
    cases hp : commitEntry p with
    | none => simpa [hp] using alookup_filterMap_commitEntry k rest
    | some q =>
      have hq : ∃ e, q = (p.1, some e) := by
        unfold commitEntry at hp
        cases h2 : p.2 with
        | none => simp [h2] at hp
        | some e =>
          rw [h2] at hp
          simp only [] at hp
          by_cases hm : (e.modified && e.isFullySpent) = true
          · rw [if_pos hm] at hp
            exact Option.noConfusion hp
          · rw [if_neg hm] at hp
            exact ⟨_, (Option.some.inj hp).symm⟩
      obtain ⟨e, rfl⟩ := hq
      by_cases hk : p.1 = k
      · simp [hp, alookup, hk]
      · simpa [hp, alookup, hk] using alookup_filterMap_commitEntry k rest

/-- The fetch loop preserves keys already present in the view. -/
theorem fetchLoop_preserves (db : Hash → Option UtxoEntry) (k : Hash)
    (v : Option UtxoEntry) :
    ∀ (l : List Hash) (es : List (Hash × Option UtxoEntry)),
      alookup k es = some v → alookup k (fetchLoop db es l) = some v
  | [], es, h => h
  | hh :: rest, es, h => by
    unfold fetchLoop
    cases hc : alookup hh es with
    | some w => exact fetchLoop_preserves db k v rest es h
    | none => exact fetchLoop_preserves db k v rest _ (alookup_append_some k v _ es h)

/-- A requested key that was absent from the view ends up mapped to the
database result. -/
theorem fetchLoop_misses (db : Hash → Option UtxoEntry) (k : Hash) :
    ∀ (l : List Hash) (es : List (Hash × Option UtxoEntry)),
      k ∈ l → alookup k es = none → alookup k (fetchLoop db es l) = some (db k)
  | [], _, hmem, _ => by simp at hmem
  | hh :: rest, es, hmem, habs => by
    unfold fetchLoop
    by_cases hk : hh = k
    · subst hk
      rw [habs]
      have hnew : alookup hh (es ++ [(hh, db hh)]) = some (db hh) := by
        rw [alookup_append_none hh _ es habs]
        simp [alookup]
      exact fetchLoop_preserves db hh (db hh) rest _ hnew
    · have hmem' : k ∈ rest := by
        rcases List.mem_cons.mp hmem with h | h
        · exact absurd h.symm hk
        · exact h
      cases hc : alookup hh es with
      | some w => exact fetchLoop_misses db k rest es hmem' habs
      | none =>
        have habs' : alookup k (es ++ [(hh, db hh)]) = none := by
          rw [alookup_append_none k _ es habs]
          simp [alookup, hk]
        exact fetchLoop_misses db k rest _ hmem' habs'

/-- C10 amended: after `fetchUtxosMain`, every requested hash that the
store lacks *and that was not already present in the view* is mapped to a
nil entry, `LookupEntry` returns nil for it, and `commit` removes every
nil-valued key, so a committed view never maps a key to nil. -/
theorem C10_amended_missing_store_entries (db : Hash → Option UtxoEntry)
    (view : UtxoViewpoint) (txSet : List Hash) (h : Hash)
    (hmem : h ∈ txSet) (habs : alookup h view.entries = none) (hdb : db h = none) :
    alookup h (fetchUtxosMain db view txSet).entries = some none ∧
    lookupEntry (fetchUtxosMain db view txSet) h = none ∧
    ∀ (v : UtxoViewpoint) (k : Hash), alookup k (commit v).entries ≠ some none := by
  have hfetch : alookup h (fetchUtxosMain db view txSet).entries = some none := by
    have := fetchLoop_misses db h txSet view.entries hmem habs
    rw [hdb] at this
    exact this
  refine ⟨hfetch, ?_, ?_⟩
  · unfold lookupEntry
    rw [hfetch]
  · intro v k
    exact alookup_filterMap_commitEntry k v.entries

/-- Witness for `C10_amended_missing_store_entries`: hash 5 requested on an
empty view with an empty store. -/
theorem C10_amended_missing_store_entries_witness :
    (5 ∈ ([5] : List Hash)
      ∧ alookup 5 (UtxoViewpoint.mk [] 0).entries = none
      ∧ (fun _ : Hash => (none : Option UtxoEntry)) 5 = none) ∧
    (alookup 5 (fetchUtxosMain (fun _ => none) (UtxoViewpoint.mk [] 0) [5]).entries = some none ∧
     lookupEntry (fetchUtxosMain (fun _ => none) (UtxoViewpoint.mk [] 0) [5]) 5 = none ∧
     ∀ (v : UtxoViewpoint) (k : Hash), alookup k (commit v).entries ≠ some none) :=
  ⟨⟨by decide, by decide, by decide⟩,
   C10_amended_missing_store_entries (fun _ => none) (UtxoViewpoint.mk [] 0) [5] 5
     (by decide) (by decide) (by decide)⟩

/-- C4 (amended): the round trip of the claim — connecting every
transaction of a block in order while recording the journal, then
disconnecting the block with the recorded journal, then committing —
restores the view entry-for-entry, provided the block is well formed and
collision-free: its first transaction is the coinbase and the others are
not, its transaction hashes are pairwise distinct and absent from the
initial view, every input resolves in the initial view to an unspent
output of a duplicate-free entry, no two inputs reference the same output,
and the initial view's key list is duplicate-free.  The unrestricted claim
is refuted by `C4_counterexample_hash_collision`. -/
theorem C4_amended (unsp : Nat → List Nat → Bool) (V0 : UtxoViewpoint)
    (block : Block) (cb : Tx) (rest : List Tx)
    (hblk : block.transactions = cb :: rest)
    (hcb : cb.isCoinBase = true)
    (hrest : ∀ t ∈ rest, t.isCoinBase = false)
    (hhashes : (block.transactions.map Tx.hash).Nodup)
    (hfresh : ∀ t ∈ block.transactions, alookup t.hash V0.entries = none)
    (hins : ∀ t ∈ rest, ∀ q ∈ t.txIns, goodInput V0 q)
    (hpairs : (inPairs (rest.flatMap Tx.txIns)).Nodup)
    (hnd : (V0.entries.map Prod.fst).Nodup) :
    ∃ V2, roundTrip unsp V0 block = .ok V2 ∧
      ∀ k, alookup k V2.entries = alookup k (commit V0).entries := by
  have hTxH : ∀ t ∈ block.transactions,
      (block.transactions.map Tx.hash).contains t.hash = true := by
    intro t ht
    exact List.elem_eq_true_of_mem (List.mem_map.mpr ⟨t, ht, rfl⟩)
  have hinsKey : ∀ t ∈ rest, ∀ q ∈ t.txIns,
      (block.transactions.map Tx.hash).contains q.prevHash = false := by
    intro t ht q hq
    cases hc : (block.transactions.map Tx.hash).contains q.prevHash with
    | false => rfl
    | true =>
      exfalso
      have hmem : q.prevHash ∈ block.transactions.map Tx.hash :=
        List.mem_of_elem_eq_true hc
      rcases List.mem_map.mp hmem with ⟨u, hu, huh⟩
      obtain ⟨e, o, he, -, -, -⟩ := hins t ht q hq
      have hn := hfresh u hu
      rw [huh] at hn
      rw [hn] at he
      exact Option.noConfusion he
  have hinv0 : connInv V0 (block.transactions.map Tx.hash) [] V0.entries := by
    intro k hk
    have hid : ∀ x : Option (Option UtxoEntry),
        x.map (Option.map (spendMark (idxsAt ([] : List TxIn) k))) = x := by
      intro x
      cases x with
      | none => rfl
      | some oe =>
        cases oe with
        | none => rfl
        | some e =>
          show some (some (spendMark (idxsAt ([] : List TxIn) k) e)) = some (some e)
          rw [idxsAt_nil, spendMark_nil]
    exact (hid (alookup k V0.entries)).symm
  have hgoodC : ∀ p ∈ block.transactions.enum,
      (block.transactions.map Tx.hash).contains p.2.hash = true ∧
      (p.2.isCoinBase = false → ∀ q ∈ p.2.txIns, goodInput V0 q ∧
        (block.transactions.map Tx.hash).contains q.prevHash = false) := by
    intro p hp
    have hpt : p.2 ∈ block.transactions := snd_mem_of_mem_enum _ p hp
    refine ⟨hTxH p.2 hpt, ?_⟩
    intro hpcb q hq
    have hprest : p.2 ∈ rest := by
      rw [hblk] at hpt
      rcases List.mem_cons.mp hpt with heq | h2
      · rw [heq] at hpcb
        rw [hcb] at hpcb
        exact Bool.noConfusion hpcb
      · exact h2
    exact ⟨hins p.2 hprest q hq, hinsKey p.2 hprest q hq⟩
  obtain ⟨V1, j1, hrC, hiC, hlC, hnC⟩ :=
    connectBlockTxs_spec V0 (block.transactions.map Tx.hash) unsp block.order
      block.transactions.enum V0 [] [] hgoodC hinv0 hnd
  have hnc : nonCbIns block.transactions.enum = rest.flatMap Tx.txIns := by
    rw [hblk]
    show nonCbIns ((0, cb) :: List.enumFrom 1 rest) = _
    rw [nonCbIns_cons, if_pos hcb, List.nil_append]
    exact nonCbIns_enumFrom rest 1 hrest
  rw [List.nil_append, hnc] at hiC
  rw [hnc] at hlC
  simp only [List.length_nil, Nat.zero_add] at hlC
  have hdisc0 : discInv V0 (block.transactions.map Tx.hash)
      (rest.flatMap Tx.txIns) [] V1.entries := by
    intro k hk
    rw [hiC k hk]
    rfl
  have hjlen : ∀ p ∈ (List.enumFrom 1 rest).reverse, ∀ q ∈ p.2.txIns,
      j1.length ≠ 0 := by
    intro p hp q hq h0
    have hpt : p.2 ∈ rest := snd_mem_of_mem_enumFrom 1 rest p (List.mem_reverse.mp hp)
    have hqm : q ∈ rest.flatMap Tx.txIns := List.mem_flatMap.mpr ⟨p.2, hpt, hq⟩
    rw [hlC] at h0
    rw [List.length_eq_zero.mp h0] at hqm
    exact absurd hqm (List.not_mem_nil q)
  have hgoodD : ∀ p ∈ (List.enumFrom 1 rest).reverse, p.1 ≠ 0 ∧
      (block.transactions.map Tx.hash).contains p.2.hash = true ∧
      ∀ q ∈ p.2.txIns, goodInput V0 q ∧
        (block.transactions.map Tx.hash).contains q.prevHash = false := by
    intro p hp
    have hpe := List.mem_reverse.mp hp
    have hpt : p.2 ∈ rest := snd_mem_of_mem_enumFrom 1 rest p hpe
    have hp1 : 1 ≤ p.1 := fst_ge_of_mem_enumFrom 1 rest p hpe
    refine ⟨by omega, hTxH p.2 (by rw [hblk]; exact List.mem_cons_of_mem _ hpt), ?_⟩
    intro q hq
    exact ⟨hins p.2 hpt q hq, hinsKey p.2 hpt q hq⟩
  have hhnD : (((List.enumFrom 1 rest).reverse).map (fun p => p.2.hash)).Nodup := by
    rw [List.map_reverse, List.nodup_reverse, enumFrom_map_comp Tx.hash 1 rest]
    have h := hhashes
    rw [hblk, List.map_cons, List.nodup_cons] at h
    exact h.2
  have hpermE : List.Perm
      ((List.enumFrom 1 rest).reverse.flatMap (fun p => p.2.txIns))
      (rest.flatMap Tx.txIns) := by
    have h1 : List.Perm
        ((List.enumFrom 1 rest).reverse.flatMap (fun p => p.2.txIns))
        ((List.enumFrom 1 rest).flatMap (fun p => p.2.txIns)) :=
      (List.reverse_perm _).flatMap_right _
    rw [enumFrom_flatMap_snd Tx.txIns 1 rest] at h1
    exact h1
  have hpairsPermD :
      List.Perm ((rest.flatMap Tx.txIns).map (fun r => (r.prevHash, r.prevOutIndex)))
        (((List.enumFrom 1 rest).reverse.flatMap (fun p => p.2.txIns)).map
          (fun r => (r.prevHash, r.prevOutIndex))) :=
    (hpermE.symm).map (fun r => (r.prevHash, r.prevOutIndex))
  have hpairsD : (inPairs ((List.enumFrom 1 rest).reverse.flatMap
      (fun p => p.2.txIns) ++ ([] : List TxIn))).Nodup := by
    rw [List.append_nil]
    have hp2 : ((rest.flatMap Tx.txIns).map
        (fun r => (r.prevHash, r.prevOutIndex))).Nodup := hpairs
    exact hpairsPermD.nodup hp2
  have hdiscD : discInv V0 (block.transactions.map Tx.hash)
      ((List.enumFrom 1 rest).reverse.flatMap (fun p => p.2.txIns) ++ ([] : List TxIn))
      [] V1.entries := by
    refine discInv_congr V0 (block.transactions.map Tx.hash)
      (rest.flatMap Tx.txIns) _ [] [] V1.entries ?_ (fun x => Iff.rfl) hdisc0
    intro x
    rw [List.append_nil]
    show x ∈ (rest.flatMap Tx.txIns).map (fun r => (r.prevHash, r.prevOutIndex)) ↔
      x ∈ ((List.enumFrom 1 rest).reverse.flatMap (fun p => p.2.txIns)).map
        (fun r => (r.prevHash, r.prevOutIndex))
    exact hpairsPermD.mem_iff
  obtain ⟨esD, hrD, hiD, hnD2, hclrD, hpresD⟩ :=
    disconnectTxs_spec V0 (block.transactions.map Tx.hash) block.order j1
      (List.enumFrom 1 rest).reverse V1.entries [] [] hgoodD hjlen hhnD hpairsD
      hdiscD hnC
  rw [List.nil_append] at hiD
  have hrevSplit : block.transactions.enum.reverse =
      (List.enumFrom 1 rest).reverse ++ [(0, cb)] := by
    rw [hblk]
    show ((0, cb) :: List.enumFrom 1 rest).reverse = _
    rw [List.reverse_cons]
  obtain ⟨ecb, hcbStep⟩ : ∃ ecb : UtxoEntry, disconnectTx block.order j1 esD (0, cb) =
      .ok (aset cb.hash (some { ecb with modified := true, sparseOutputs := [] }) esD) := by
    cases hsc : (alookup cb.hash esD).join with
    | none =>
      refine ⟨newUtxoEntry cb.version block.order 0 true (cb.expire ≠ 0) 0, ?_⟩
      simp only [disconnectTx, hsc]
      rfl
    | some e0 =>
      refine ⟨e0, ?_⟩
      simp only [disconnectTx, hsc]
      rfl
  have hdisc : disconnectTransactions V1 block j1 =
      .ok { entries := (aset cb.hash
              (some { ecb with modified := true, sparseOutputs := [] }) esD),
            bestHash := block.hash } := by
    simp only [disconnectTransactions, hrevSplit, foldE_append, hrD, foldE, hcbStep]
  have hrt : roundTrip unsp V0 block =
      .ok (commit
        { entries := (aset cb.hash
            (some { ecb with modified := true, sparseOutputs := [] }) esD),
          bestHash := block.hash }) := by
    simp only [roundTrip, hrC, hdisc]
  have hndE2 : ((aset cb.hash
      (some { ecb with modified := true, sparseOutputs := [] }) esD).map Prod.fst).Nodup :=
    nodupKeys_aset _ _ _ hnD2
  refine ⟨_, hrt, ?_⟩
  intro k
  show alookup k ((aset cb.hash
      (some { ecb with modified := true, sparseOutputs := [] }) esD).filterMap commitEntry) =
    alookup k (V0.entries.filterMap commitEntry)
  rw [alookup_commit k _ hndE2, alookup_commit k _ hnd]
  by_cases hkT : (block.transactions.map Tx.hash).contains k = true
  · have hkmem : k ∈ block.transactions.map Tx.hash := List.mem_of_elem_eq_true hkT
    rcases List.mem_map.mp hkmem with ⟨t, ht, hth2⟩
    have hV0k : alookup k V0.entries = none := by
      have h := hfresh t ht
      rwa [hth2] at h
    have hE2k : ∃ e', alookup k (aset cb.hash
        (some { ecb with modified := true, sparseOutputs := [] }) esD) = some (some e') ∧
        e'.modified = true ∧ e'.sparseOutputs = [] := by
      rw [hblk] at ht
      rcases List.mem_cons.mp ht with rfl | htr
      · rw [← hth2, alookup_aset_self]
        exact ⟨{ ecb with modified := true, sparseOutputs := [] }, rfl, rfl, rfl⟩
      · have hne : cb.hash ≠ k := by
          intro he
          rw [hblk, List.map_cons, List.nodup_cons] at hhashes
          apply hhashes.1
          rw [he, ← hth2]
          exact List.mem_map.mpr ⟨t, htr, rfl⟩
        rw [alookup_aset_ne k cb.hash _ hne]
        rcases mem_enumFrom_of_mem 1 rest t htr with ⟨idx, hidx⟩
        rcases hclrD (idx, t) (List.mem_reverse.mpr hidx) with ⟨e', hlk, hm, hs⟩
        rw [← hth2]
        exact ⟨e', hlk, hm, hs⟩
    rcases hE2k with ⟨e', hlook, hmod, hso⟩
    rw [hlook, hV0k]
    have hfs : e'.isFullySpent = true := by
      unfold UtxoEntry.isFullySpent
      rw [hso]
      rfl
    simp [hmod, hfs]
  · have hkF : (block.transactions.map Tx.hash).contains k = false := by
      cases hcc : (block.transactions.map Tx.hash).contains k with
      | true => exact absurd hcc hkT
      | false => rfl
    have hkcb : cb.hash ≠ k := by
      intro he
      rw [← he] at hkF
      rw [hTxH cb (by rw [hblk]; exact List.mem_cons_self _ _)] at hkF
      exact Bool.noConfusion hkF
    rw [alookup_aset_ne k cb.hash _ hkcb]
    cases hv : alookup k V0.entries with
    | none =>
      have h2 := hiD k hkF
      rw [hv] at h2
      have hesD : alookup k esD = none := h2
      rw [hesD]
    | some oe =>
      cases oe with
      | none =>
        have h2 := hiD k hkF
        rw [hv] at h2
        have hesD : alookup k esD = some none := h2
        rw [hesD]
      | some e =>
        have h2 := hiD k hkF
        rw [hv] at h2
        have hesD : alookup k esD = some (some (discMark (idxsAt ([] : List TxIn) k)
            (((List.enumFrom 1 rest).reverse.flatMap (fun p => p.2.txIns)).any
              (fun r => r.prevHash == k)) e)) := h2
        rw [idxsAt_nil] at hesD
        cases hB : ((List.enumFrom 1 rest).reverse.flatMap (fun p => p.2.txIns)).any
            (fun r => r.prevHash == k) with
        | false =>
          rw [hB] at hesD
          rw [hesD, discMark_nil_false]
        | true =>
          rw [hB] at hesD
          rw [hesD, discMark_nil_true]
          have hfsAll : e.sparseOutputs.all (fun p => p.2.spent) = false := by
            cases hall : e.sparseOutputs.all (fun p => p.2.spent) with
            | false => rfl
            | true =>
              exfalso
              rcases List.any_eq_true.mp hB with ⟨r, hrmem, hrk⟩
              have hrmem2 : r ∈ rest.flatMap Tx.txIns := hpermE.mem_iff.mp hrmem
              rcases List.mem_flatMap.mp hrmem2 with ⟨t2, ht2, hq2⟩
              obtain ⟨e2, o2, he2, hnde2, ho2, hosp2⟩ := hins t2 ht2 r hq2
              have hrkeq : r.prevHash = k := eq_of_beq hrk
              rw [hrkeq] at he2
              rw [hv] at he2
              have hee : e = e2 := Option.some.inj (Option.some.inj he2)
              have hmem2 : (r.prevOutIndex, o2) ∈ e2.sparseOutputs :=
                alookup_mem _ _ _ ho2
              have hmem3 : (r.prevOutIndex, o2) ∈ e.sparseOutputs := by
                rw [hee]
                exact hmem2
              have h3 : o2.spent = true :=
                List.all_eq_true.mp hall (r.prevOutIndex, o2) hmem3
              rw [hosp2] at h3
              exact Bool.noConfusion h3
          simp [UtxoEntry.isFullySpent, hfsAll]

/-- The C4 amended theorem applied to the collision-free witness view: the
round trip on `c4WitnessV0` and `c4Block` succeeds and restores the view. -/
theorem C4_amended_witness :
    ∃ V2, roundTrip (fun _ _ => false) c4WitnessV0 c4Block = .ok V2 ∧
      ∀ k, alookup k V2.entries = alookup k (commit c4WitnessV0).entries :=
  C4_amended (fun _ _ => false) c4WitnessV0 c4Block c4Cb [c4Sp] rfl rfl
    (by decide)
    (by decide)
    (fun t ht => by
      rcases List.mem_cons.mp ht with rfl | ht2
      · rfl
      · rcases List.mem_cons.mp ht2 with rfl | ht3
        · rfl
        · exact absurd ht3 (List.not_mem_nil t))
    (fun t ht => by
      rcases List.mem_cons.mp ht with rfl | ht2
      · intro q hq
        rcases List.mem_cons.mp hq with rfl | hq2
        · exact ⟨c4RefEntry,
            { scriptVersion := 0, pkScript := [7], amount := 50, spent := false },
            rfl, by decide, rfl, rfl⟩
        · exact absurd hq2 (List.not_mem_nil q)
      · exact absurd ht2 (List.not_mem_nil t))
    (by decide)
    (by decide)

end Qitmeer
